import Mathlib

/-!
Verification development for the SCD Type-2 customer-dimension pipeline.

The definitions below are a shallow embedding of the two batch jobs
(`dim_customers_scd.py` and `future_orders.py`) and of the crawler helper in
`db_utils.py`.  DataFrames are modelled as Lean lists of rows; SQL column
comparisons follow three-valued logic (a comparison on NULL yields UNKNOWN,
and a filter or join keeps a row only when its condition is definitely TRUE),
exactly as Spark evaluates the predicates written in the job.  The Delta
`merge` with `whenMatchedUpdateAll` / `whenNotMatchedInsertAll` is modelled as
a function that fails (returns `none`) when one target row is matched by two
or more source rows, which is the error Delta raises in that situation.
-/

namespace SCD

/-- Three-valued SQL truth values: true, false, unknown. -/
inductive TV where
  | t
  | f
  | u
deriving DecidableEq, Repr

/-- A filter or join keeps a row only when the condition is definitely true. -/
def TV.isTrue : TV → Bool
  | .t => true
  | _ => false

/-- SQL three-valued conjunction. -/
def tvAnd : TV → TV → TV
  | .f, _ => .f
  | .t, y => y
  | .u, .f => .f
  | .u, _ => .u

/-- SQL three-valued disjunction. -/
def tvOr : TV → TV → TV
  | .t, _ => .t
  | .f, y => y
  | .u, .t => .t
  | .u, _ => .u

/-- SQL equality on nullable values: comparing with NULL is UNKNOWN. -/
def tvEq {α : Type} [DecidableEq α] : Option α → Option α → TV
  | some a, some b => if a = b then .t else .f
  | _, _ => .u

/-- SQL inequality on nullable values: comparing with NULL is UNKNOWN. -/
def tvNe {α : Type} [DecidableEq α] : Option α → Option α → TV
  | some a, some b => if a = b then .f else .t
  | _, _ => .u

/-- SQL strict greater-than on nullable numeric values. -/
def tvGt : Option Nat → Option Nat → TV
  | some a, some b => if b < a then .t else .f
  | _, _ => .u

/-- A row of the `dim_customers_scd` Delta table (schema from
`db_utils.get_metadata`); every column is nullable. Timestamps and dates are
modelled as natural numbers. -/
structure Row where
  customer_id : Option Int
  email : Option String
  first_name : Option String
  last_name : Option String
  phone : Option String
  number_of_orders : Option Int
  updated_at : Option Nat
  effective_start_date : Option Nat
  effective_end_date : Option Nat
  is_active : Option Bool
deriving DecidableEq, Repr

/-- A record of the extracted source batch (`collect_customer_data`): the
tracked attributes plus the source timestamp, before the three SCD columns
are attached. -/
structure CustRecord where
  customer_id : Option Int
  email : Option String
  first_name : Option String
  last_name : Option String
  phone : Option String
  number_of_orders : Option Int
  updated_at : Option Nat
deriving DecidableEq, Repr

/-- Lines 28-34 of the job: attach `effective_start_date`,
`effective_end_date` and `is_active` as NULL columns and cast to the
dimension schema. -/
def toRow (s : CustRecord) : Row :=
  { customer_id := s.customer_id, email := s.email, first_name := s.first_name,
    last_name := s.last_name, phone := s.phone,
    number_of_orders := s.number_of_orders, updated_at := s.updated_at,
    effective_start_date := none, effective_end_date := none, is_active := none }

/-- The date 9999-12-31, the open-interval sentinel, encoded as yyyymmdd. -/
def sentinelDate : Nat := 99991231

/-- The all-NULL row standing for the absent right side of a left join. -/
def nullRow : Row :=
  { customer_id := none, email := none, first_name := none, last_name := none,
    phone := none, number_of_orders := none, updated_at := none,
    effective_start_date := none, effective_end_date := none, is_active := none }

/-- View of the right side of a joined pair: the matched row, or all NULLs. -/
def tgtOf : Option Row → Row
  | some t => t
  | none => nullRow

/-- Line 40-41: `delta_table.toDF().filter(col("is_active") == True)`. -/
def activeRows (table : List Row) : List Row :=
  table.filter (fun r => (tvEq r.is_active (some true)).isTrue)

/-- The join condition of line 45: `tgt.customer_id == src.customer_id`. -/
def keyMatch (t s : Row) : Bool := (tvEq t.customer_id s.customer_id).isTrue

/-- Left outer join of the batch (left) against a target table (right) on the
natural key: each left row pairs with every right row whose key definitely
matches, or with NULLs when none does. -/
def leftJoin (src : List Row) (tgt : List Row) : List (Row × Option Row) :=
  src.flatMap (fun s =>
    let ms := tgt.filter (fun t => keyMatch t s)
    if ms.isEmpty then [(s, none)] else ms.map (fun t => (s, some t)))

/-- Batch preparation: each extracted record becomes a dimension-shaped row
with NULL SCD columns. -/
def prepBatch (batch : List CustRecord) : List Row := batch.map toRow

/-- Line 44-45: the joined DataFrame `src LEFT JOIN tgt ON key`. -/
def joinedPairs (table : List Row) (batch : List CustRecord) :
    List (Row × Option Row) :=
  leftJoin (prepBatch batch) (activeRows table)

/-- The change-detection condition of lines 47-53 (and its verbatim copy at
lines 70-76): key equality AND (any tracked attribute differs), evaluated in
three-valued logic. -/
def changeCond (s t : Row) : TV :=
  tvAnd (tvEq t.customer_id s.customer_id)
    (tvOr (tvNe t.first_name s.first_name)
    (tvOr (tvNe t.last_name s.last_name)
    (tvOr (tvNe t.email s.email)
    (tvOr (tvNe t.phone s.phone)
          (tvNe t.number_of_orders s.number_of_orders)))))

/-- A joined pair passes the changed filter. -/
def changedPair (p : Row × Option Row) : Bool := (changeCond p.1 (tgtOf p.2)).isTrue

/-- The new-key filter of line 93:
`src.customer_id IS NOT NULL AND tgt.customer_id IS NULL`. -/
def newKeyPair (p : Row × Option Row) : Bool :=
  p.1.customer_id.isSome && (tgtOf p.2).customer_id.isNone

/-- The select of lines 54-65 (and identically 94-105): source attributes,
`effective_start_date` = run date, `effective_end_date` = sentinel,
`is_active` = true. -/
def mkNewVersion (d : Nat) (s : Row) : Row :=
  { customer_id := s.customer_id, email := s.email, first_name := s.first_name,
    last_name := s.last_name, phone := s.phone,
    number_of_orders := s.number_of_orders, updated_at := s.updated_at,
    effective_start_date := some d, effective_end_date := some sentinelDate,
    is_active := some true }

/-- The select of lines 77-88: target attributes and start date kept,
`effective_end_date` = run date, `is_active` = false. -/
def mkClosed (d : Nat) (t : Row) : Row :=
  { customer_id := t.customer_id, email := t.email, first_name := t.first_name,
    last_name := t.last_name, phone := t.phone,
    number_of_orders := t.number_of_orders, updated_at := t.updated_at,
    effective_start_date := t.effective_start_date,
    effective_end_date := some d, is_active := some false }

/-- Lines 47-65: `updated_new_records`. -/
def updated_new_records (table : List Row) (batch : List CustRecord) (d : Nat) :
    List Row :=
  ((joinedPairs table batch).filter changedPair).map (fun p => mkNewVersion d p.1)

/-- Lines 70-88: `updated_old_records`. -/
def updated_old_records (table : List Row) (batch : List CustRecord) (d : Nat) :
    List Row :=
  ((joinedPairs table batch).filter changedPair).map (fun p => mkClosed d (tgtOf p.2))

/-- Lines 93-105: `new_records`. -/
def new_records (table : List Row) (batch : List CustRecord) (d : Nat) :
    List Row :=
  ((joinedPairs table batch).filter newKeyPair).map (fun p => mkNewVersion d p.1)

/-- Line 110: `updated_old_records.union(updated_new_records).union(new_records)`
(DataFrame union is concatenation). -/
def final_changes (table : List Row) (batch : List CustRecord) (d : Nat) :
    List Row :=
  updated_old_records table batch d ++ updated_new_records table batch d ++
    new_records table batch d

/-- The merge condition of lines 119-124: natural key AND every tracked
attribute equal, in three-valued logic. -/
def mergeCond (t s : Row) : TV :=
  tvAnd (tvEq t.customer_id s.customer_id)
  (tvAnd (tvEq t.email s.email)
  (tvAnd (tvEq t.first_name s.first_name)
  (tvAnd (tvEq t.last_name s.last_name)
  (tvAnd (tvEq t.phone s.phone)
         (tvEq t.number_of_orders s.number_of_orders)))))

/-- A target row and a changeset row match under the merge condition. -/
def matchesB (t s : Row) : Bool := (mergeCond t s).isTrue

/-- Effect of `whenMatchedUpdateAll` on one target row: if exactly one
changeset row matches it, all its columns are replaced by that row. -/
def mergeStep (changes : List Row) (t : Row) : Row :=
  match changes.filter (fun c => matchesB t c) with
  | [c] => c
  | _ => t

/-- Effect of `whenNotMatchedInsertAll`: changeset rows matching no target
row are inserted. -/
def mergeInserts (table changes : List Row) : List Row :=
  changes.filter (fun c => !(table.any (fun t => matchesB t c)))

/-- The table state produced by a successful merge: every target row updated
by its unique match (or kept), followed by the inserted changeset rows. -/
def mergedResult (table changes : List Row) : List Row :=
  table.map (mergeStep changes) ++ mergeInserts table changes

/-- Lines 117-127: the Delta merge. Delta raises an error when several source
rows match (and would each update) the same target row; this is modelled by
returning `none`. Otherwise every matched target row is updated with its
matching changeset row and every unmatched changeset row is inserted. -/
def deltaMerge (table changes : List Row) : Option (List Row) :=
  if table.all (fun t => decide ((changes.filter (fun c => matchesB t c)).length ≤ 1)) then
    some (mergedResult table changes)
  else none

/-- One Reconciler run, also reporting whether the merge was invoked: lines
24-26 short-circuit an empty batch before any join or merge work. -/
def scdRunT (table : List Row) (batch : List CustRecord) (d : Nat) :
    Option (List Row × Bool) :=
  if batch = [] then some (table, false)
  else (deltaMerge table (final_changes table batch d)).map (fun r => (r, true))

/-- One Reconciler run: the resulting dimension table, or `none` when the
merge fails. -/
def scdRun (table : List Row) (batch : List CustRecord) (d : Nat) :
    Option (List Row) :=
  (scdRunT table batch d).map Prod.fst

/-- A sequence of Reconciler runs, each with its own batch and run date. -/
def runSeq (table : List Row) : List (List CustRecord × Nat) → Option (List Row)
  | [] => some table
  | b :: bs => (scdRun table b.1 b.2).bind (fun t2 => runSeq t2 bs)

/-- Outcome of the underlying `start_crawler` client call in
`run_glue_crawler` (lines 67-79 of `db_utils.py`). -/
inductive CrawlerOutcome where
  | started (response : String)
  | alreadyRunning
  | failed (msg : String)
deriving DecidableEq, Repr

/-- The raw `client.start_crawler` call: succeeds with a response, or raises
`CrawlerRunningException`, or raises some other exception. -/
def startGlueCrawler : CrawlerOutcome → Except String String
  | .started r => Except.ok r
  | .alreadyRunning => Except.error "CrawlerRunningException"
  | .failed m => Except.error m

/-- Lines 67-79 of `db_utils.py`: the call is wrapped in try/except with one
handler for `CrawlerRunningException` and one for every other exception; both
handlers only print, so no error escapes. -/
def runGlueCrawler (b : CrawlerOutcome) : Except String Unit :=
  match startGlueCrawler b with
  | Except.ok _ => Except.ok ()
  | Except.error e =>
      if e = "CrawlerRunningException" then Except.ok () else Except.ok ()

/-- The whole `dim_customers_scd_etl_job` seen from the caller: empty batch
returns early (before the crawler); otherwise the merge runs and, on success,
the crawler is triggered; an exception escaping the crawler trigger would
propagate as an error. -/
def scdJob (table : List Row) (batch : List CustRecord) (d : Nat)
    (cb : CrawlerOutcome) : Except String (List Row) :=
  if batch = [] then Except.ok table
  else
    match deltaMerge table (final_changes table batch d) with
    | none => Except.error "merge failed"
    | some res =>
        match runGlueCrawler cb with
        | Except.ok _ => Except.ok res
        | Except.error e => Except.error e

/-- A row of the `bmd.orders` fact table (schema from `get_metadata`). -/
structure OrderRow where
  order_id : Option Int
  order_name : Option String
  created_at : Option Nat
  processed_at : Option Nat
  updated_at : Option Nat
  financial_status : Option String
  customer_id : Option Int
  total_price : Option Int
  draft_type : Option String
  theme : Option String
  flavor : Option String
  allergies : Option String
  pickup_date : Option Nat
deriving DecidableEq, Repr

/-- A row of the `future_orders` extract: the fixed projection of the query
in `future_orders.py` (lines 31-39). -/
structure ExtractRow where
  order_name : Option String
  first_name : Option String
  financial_status : Option String
  draft_type : Option String
  theme : Option String
  flavor : Option String
  allergies : Option String
  pickup_date : Option Nat
deriving DecidableEq, Repr

/-- The SELECT list of the query: order fields plus the customer first name. -/
def projectRow (c : Row) (o : OrderRow) : ExtractRow :=
  { order_name := o.order_name, first_name := c.first_name,
    financial_status := o.financial_status, draft_type := o.draft_type,
    theme := o.theme, flavor := o.flavor, allergies := o.allergies,
    pickup_date := o.pickup_date }

/-- Ascending comparison of nullable sort keys, with SQL default NULLS LAST
for ascending order. -/
def optLe : Option Nat → Option Nat → Bool
  | some x, some y => decide (x ≤ y)
  | some _, none => true
  | none, some _ => false
  | none, none => true

/-- Ascending comparison on `pickup_date` used by the ORDER BY. -/
def pickupLe (a b : ExtractRow) : Bool :=
  optLe a.pickup_date b.pickup_date

/-- Ordered insertion for the ORDER BY. -/
def insertSorted (x : ExtractRow) : List ExtractRow → List ExtractRow
  | [] => [x]
  | y :: ys => if pickupLe x y then x :: y :: ys else y :: insertSorted x ys

/-- Sorting the query result by `pickup_date` ascending. -/
def sortByPickup : List ExtractRow → List ExtractRow
  | [] => []
  | x :: xs => insertSorted x (sortByPickup xs)

/-- The query of `future_orders.py` lines 14-48: fact rows with
`pickup_date > current_date`, inner-joined on the natural key to dimension
rows with `is_active = true`, projected and ordered by `pickup_date`. -/
def futureOrdersQuery (ordersTbl : List OrderRow) (dimTbl : List Row)
    (today : Nat) : List ExtractRow :=
  sortByPickup
    ((dimTbl.filter (fun c => (tvEq c.is_active (some true)).isTrue)).flatMap
      (fun c =>
        (((ordersTbl.filter
            (fun o => (tvGt o.pickup_date (some today)).isTrue)).filter
          (fun o => (tvEq c.customer_id o.customer_id).isTrue)).map
            (fun o => projectRow c o))))

/-- Line 52: `write.format("delta").mode("overwrite")` fully replaces the
previous content of the target table. -/
def overwriteTable (oldTbl newTbl : List ExtractRow) : List ExtractRow := newTbl

/-- The whole `future_orders_etl_job`: run the query, overwrite the target,
trigger the crawler. -/
def future_orders_etl_job (oldTbl : List ExtractRow) (ordersTbl : List OrderRow)
    (dimTbl : List Row) (today : Nat) (cb : CrawlerOutcome) :
    List ExtractRow × Except String Unit :=
  (overwriteTable oldTbl (futureOrdersQuery ordersTbl dimTbl today),
    runGlueCrawler cb)

/-- The merge-relevant value tuple of a row: natural key plus every tracked
attribute, exactly the columns compared by the merge condition. -/
def rowTuple (r : Row) :
    Option Int × Option String × Option String × Option String × Option String × Option Int :=
  (r.customer_id, r.email, r.first_name, r.last_name, r.phone, r.number_of_orders)

/-- All merge-compared columns of the row are non-NULL. -/
def rowNonNull (r : Row) : Bool :=
  r.customer_id.isSome && r.email.isSome && r.first_name.isSome &&
    r.last_name.isSome && r.phone.isSome && r.number_of_orders.isSome

/-- The row carries the given natural key and `is_active = true`. -/
def isActiveKey (k : Option Int) (r : Row) : Bool :=
  decide (r.customer_id = k) && decide (r.is_active = some true)

/-- The rows of the table carrying the given natural key with
`is_active = true`. -/
def activeK (k : Option Int) (table : List Row) : List Row :=
  table.filter (isActiveKey k)

/-- Well-formedness of a dimension table: every merge-compared column is
non-NULL, no two rows agree on the whole merge-compared tuple, and every
natural key present in the table has exactly one active row. -/
def WellFormed (table : List Row) : Prop :=
  (∀ r ∈ table, rowNonNull r = true) ∧
  List.Pairwise (fun a b => rowTuple a ≠ rowTuple b) table ∧
  (∀ r ∈ table, (activeK r.customer_id table).length = 1)

/-- Well-formedness of an extracted batch: every record has a non-NULL key
and non-NULL tracked attributes, and no two records share a natural key. -/
def BatchOK (batch : List CustRecord) : Prop :=
  (∀ s ∈ batch, rowNonNull (toRow s) = true) ∧
  List.Pairwise (fun a b => a.customer_id ≠ b.customer_id) batch

instance rowTupleNeDec : DecidableRel (fun a b : Row => rowTuple a ≠ rowTuple b) :=
  fun a b => inferInstanceAs (Decidable (rowTuple a ≠ rowTuple b))

instance custKeyNeDec :
    DecidableRel (fun a b : CustRecord => a.customer_id ≠ b.customer_id) :=
  fun a b => inferInstanceAs (Decidable (a.customer_id ≠ b.customer_id))

instance (table : List Row) : Decidable (WellFormed table) :=
  inferInstanceAs (Decidable ((∀ r ∈ table, rowNonNull r = true) ∧
    List.Pairwise (fun a b => rowTuple a ≠ rowTuple b) table ∧
    (∀ r ∈ table, (activeK r.customer_id table).length = 1)))

instance (batch : List CustRecord) : Decidable (BatchOK batch) :=
  inferInstanceAs (Decidable ((∀ s ∈ batch, rowNonNull (toRow s) = true) ∧
    List.Pairwise (fun a b : CustRecord => a.customer_id ≠ b.customer_id) batch))

/-- The joined pairs contributed by one batch record: one pair per active
dimension row with the same key, or a single NULL-padded pair. -/
def pairsFor (table : List Row) (s : CustRecord) : List (Row × Option Row) :=
  let ms := (activeRows table).filter (fun t => keyMatch t (toRow s))
  if ms.isEmpty then [(toRow s, none)] else ms.map (fun t => (toRow s, some t))

/-- Rows contributed by one batch record to `updated_old_records`. -/
def oldContrib (table : List Row) (d : Nat) (s : CustRecord) : List Row :=
  ((pairsFor table s).filter changedPair).map (fun p => mkClosed d (tgtOf p.2))

/-- Rows contributed by one batch record to `updated_new_records`. -/
def newContrib (table : List Row) (d : Nat) (s : CustRecord) : List Row :=
  ((pairsFor table s).filter changedPair).map (fun p => mkNewVersion d p.1)

/-- Rows contributed by one batch record to `new_records`. -/
def nkContrib (table : List Row) (d : Nat) (s : CustRecord) : List Row :=
  ((pairsFor table s).filter newKeyPair).map (fun p => mkNewVersion d p.1)

/-- The batch records carrying a given natural key. -/
def batchFor (k : Option Int) (batch : List CustRecord) : List CustRecord :=
  batch.filter (fun s => decide (s.customer_id = k))

/-- Both nullable values are present and differ: the notion of attribute
difference that the change filter can actually detect. -/
def attrDiff {α : Type} (a b : Option α) : Prop :=
  ∃ x y, a = some x ∧ b = some y ∧ x ≠ y

/-- Example batch record: brand-new key 2, first variant. -/
def exDupA : CustRecord :=
  { customer_id := some 2, email := some "a", first_name := some "B",
    last_name := some "L", phone := some "P", number_of_orders := some 1,
    updated_at := some 10 }

/-- Example batch record: brand-new key 2, second variant (different email). -/
def exDupB : CustRecord :=
  { customer_id := some 2, email := some "b", first_name := some "B",
    last_name := some "L", phone := some "P", number_of_orders := some 1,
    updated_at := some 11 }

/-- Example closed historical version of customer 1 with attribute set A. -/
def exHistRow : Row :=
  { customer_id := some 1, email := some "e", first_name := some "A",
    last_name := some "L", phone := some "P", number_of_orders := some 1,
    updated_at := some 0, effective_start_date := some 50,
    effective_end_date := some 60, is_active := some false }

/-- Example current active version of customer 1 with attribute set B. -/
def exActRow : Row :=
  { customer_id := some 1, email := some "e", first_name := some "Bb",
    last_name := some "L", phone := some "P", number_of_orders := some 1,
    updated_at := some 5, effective_start_date := some 60,
    effective_end_date := some sentinelDate, is_active := some true }

/-- Example batch record flipping customer 1 back to attribute set A. -/
def exFlipRec : CustRecord :=
  { customer_id := some 1, email := some "e", first_name := some "A",
    last_name := some "L", phone := some "P", number_of_orders := some 1,
    updated_at := some 9 }

/-- Example active dimension row whose email is NULL. -/
def exNullActive : Row :=
  { customer_id := some 1, email := none, first_name := some "A",
    last_name := some "L", phone := some "P", number_of_orders := some 2,
    updated_at := some 0, effective_start_date := some 100,
    effective_end_date := some sentinelDate, is_active := some true }

/-- Example batch record for the NULL-email customer with a changed name. -/
def exNullRec : CustRecord :=
  { customer_id := some 1, email := none, first_name := some "B",
    last_name := some "L", phone := some "P", number_of_orders := some 2,
    updated_at := some 1 }

/-- Example dimension row for key 3 that is closed (inactive). -/
def exInactiveOnly : Row :=
  { customer_id := some 3, email := some "x", first_name := some "F",
    last_name := some "G", phone := some "Q", number_of_orders := some 4,
    updated_at := some 0, effective_start_date := some 10,
    effective_end_date := some 20, is_active := some false }

/-- Example batch record for key 3 carrying exactly the stored attributes. -/
def exSameRec : CustRecord :=
  { customer_id := some 3, email := some "x", first_name := some "F",
    last_name := some "G", phone := some "Q", number_of_orders := some 4,
    updated_at := some 30 }

/-- Example active dimension row whose email is NULL, name A (change test). -/
def exNullCmpTgt : Row :=
  { customer_id := some 1, email := none, first_name := some "A",
    last_name := some "L", phone := some "P", number_of_orders := some 2,
    updated_at := some 0, effective_start_date := some 1,
    effective_end_date := some sentinelDate, is_active := some true }

/-- Example batch record identical to `exNullCmpTgt` except that email is
present (non-NULL). -/
def exNullCmpSrc : CustRecord :=
  { customer_id := some 1, email := some "new", first_name := some "A",
    last_name := some "L", phone := some "P", number_of_orders := some 2,
    updated_at := some 5 }

/-- Example well-formed one-row dimension table. -/
def exWfRow : Row :=
  { customer_id := some 1, email := some "e", first_name := some "F",
    last_name := some "L", phone := some "P", number_of_orders := some 2,
    updated_at := some 0, effective_start_date := some 100,
    effective_end_date := some sentinelDate, is_active := some true }

/-- Example batch record changing the order count of customer 1. -/
def exWfRec : CustRecord :=
  { customer_id := some 1, email := some "e", first_name := some "F",
    last_name := some "L", phone := some "P", number_of_orders := some 3,
    updated_at := some 5 }

/-- Example batch record for a brand-new key 7. -/
def exNewRec : CustRecord :=
  { customer_id := some 7, email := some "n", first_name := some "N",
    last_name := some "M", phone := some "R", number_of_orders := some 1,
    updated_at := some 6 }

/-- Example batch record carrying exactly the attributes stored for
customer 1 (an unchanged record). -/
def exUnchRec : CustRecord :=
  { customer_id := some 1, email := some "e", first_name := some "F",
    last_name := some "L", phone := some "P", number_of_orders := some 2,
    updated_at := some 9 }

/-- Example batch record whose natural key is NULL. -/
def exNullKeyRec : CustRecord :=
  { customer_id := none, email := some "z", first_name := some "Z",
    last_name := some "Y", phone := some "W", number_of_orders := some 9,
    updated_at := some 3 }

/-- Example fact row: order for customer 1 picked up at time 50. -/
def exOrder1 : OrderRow :=
  { order_id := some 11, order_name := some "o1", created_at := some 1,
    processed_at := some 2, updated_at := some 3,
    financial_status := some "paid", customer_id := some 1,
    total_price := some 100, draft_type := some "d", theme := some "t",
    flavor := some "f", allergies := some "none", pickup_date := some 50 }

/-- Example fact row: order for customer 1 picked up at time 40. -/
def exOrder2 : OrderRow :=
  { order_id := some 12, order_name := some "o2", created_at := some 1,
    processed_at := some 2, updated_at := some 3,
    financial_status := some "pending", customer_id := some 1,
    total_price := some 90, draft_type := some "d", theme := some "t",
    flavor := some "g", allergies := some "x", pickup_date := some 40 }

/-- Example fact row: order in the past (pickup time 5). -/
def exOrderPast : OrderRow :=
  { order_id := some 13, order_name := some "o3", created_at := some 1,
    processed_at := some 2, updated_at := some 3,
    financial_status := some "paid", customer_id := some 1,
    total_price := some 10, draft_type := some "d", theme := some "t",
    flavor := some "h", allergies := some "y", pickup_date := some 5 }

theorem TV.isTrue_iff {x : TV} : x.isTrue = true ↔ x = TV.t := by
  cases x <;> simp [TV.isTrue]

theorem tvAnd_eq_t {x y : TV} : tvAnd x y = TV.t ↔ x = TV.t ∧ y = TV.t := by
  cases x <;> cases y <;> simp [tvAnd]

theorem tvOr_eq_t {x y : TV} : tvOr x y = TV.t ↔ x = TV.t ∨ y = TV.t := by
  cases x <;> cases y <;> simp [tvOr]

theorem tvEq_eq_t {α : Type} [DecidableEq α] {a b : Option α} :
    tvEq a b = TV.t ↔ ∃ v, a = some v ∧ b = some v := by
  cases a <;> cases b <;> simp [tvEq]
  exact eq_comm

theorem tvNe_eq_t {α : Type} [DecidableEq α] {a b : Option α} :
    tvNe a b = TV.t ↔ attrDiff a b := by
  cases a <;> cases b <;> simp [tvNe, attrDiff]

theorem tvEq_isTrue_decide {α : Type} [DecidableEq α] {a : Option α} {v : α} :
    (tvEq a (some v)).isTrue = decide (a = some v) := by
  cases a <;> simp [tvEq, TV.isTrue]
  split <;> simp_all [TV.isTrue]

theorem matchesB_iff {t s : Row} :
    matchesB t s = true ↔
      rowNonNull t = true ∧ rowNonNull s = true ∧ rowTuple t = rowTuple s := by
  constructor
  · intro h
    rw [matchesB, TV.isTrue_iff, mergeCond] at h
    simp only [tvAnd_eq_t, tvEq_eq_t] at h
    obtain ⟨⟨k, hk1, hk2⟩, ⟨e, he1, he2⟩, ⟨fn, hf1, hf2⟩, ⟨ln, hl1, hl2⟩,
      ⟨p, hp1, hp2⟩, ⟨n, hn1, hn2⟩⟩ := h
    refine ⟨?_, ?_, ?_⟩
    · simp [rowNonNull, hk1, he1, hf1, hl1, hp1, hn1]
    · simp [rowNonNull, hk2, he2, hf2, hl2, hp2, hn2]
    · simp [rowTuple, hk1, hk2, he1, he2, hf1, hf2, hl1, hl2, hp1, hp2, hn1, hn2]
  · rintro ⟨h1, h2, h3⟩
    rw [matchesB, TV.isTrue_iff, mergeCond]
    simp only [rowNonNull, Bool.and_eq_true, Option.isSome_iff_exists] at h1
    obtain ⟨⟨⟨⟨⟨⟨k, hk⟩, e, he⟩, fn, hf⟩, ln, hl⟩, p, hp⟩, n, hn⟩ := h1
    simp only [rowTuple, Prod.mk.injEq] at h3
    obtain ⟨e1, e2, e3, e4, e5, e6⟩ := h3
    simp only [tvAnd_eq_t, tvEq_eq_t]
    exact ⟨⟨k, hk, e1 ▸ hk⟩, ⟨e, he, e2 ▸ he⟩, ⟨fn, hf, e3 ▸ hf⟩,
      ⟨ln, hl, e4 ▸ hl⟩, ⟨p, hp, e5 ▸ hp⟩, ⟨n, hn, e6 ▸ hn⟩⟩

theorem changeCond_isTrue_iff {s t : Row} :
    (changeCond s t).isTrue = true ↔
      (∃ k, t.customer_id = some k ∧ s.customer_id = some k) ∧
      (attrDiff t.first_name s.first_name ∨ attrDiff t.last_name s.last_name ∨
       attrDiff t.email s.email ∨ attrDiff t.phone s.phone ∨
       attrDiff t.number_of_orders s.number_of_orders) := by
  rw [TV.isTrue_iff, changeCond]
  simp only [tvAnd_eq_t, tvOr_eq_t, tvEq_eq_t, tvNe_eq_t]

theorem changeCond_ignores_updated_at (s t : Row) (x y : Option Nat) :
    changeCond { s with updated_at := x } { t with updated_at := y } =
      changeCond s t := rfl

theorem tvEq_none_left {α : Type} [DecidableEq α] (a : Option α) :
    tvEq none a = TV.u := by
  cases a <;> rfl

theorem tvEq_none_right {α : Type} [DecidableEq α] (a : Option α) :
    tvEq a none = TV.u := by
  cases a <;> rfl

theorem tvAnd_u_isTrue (w : TV) : (tvAnd TV.u w).isTrue = false := by
  cases w <;> rfl

theorem countP_flatMap {α β : Type} (p : β → Bool) (l : List α) (g : α → List β) :
    (l.flatMap g).countP p = (l.map (fun x => (g x).countP p)).sum := by
  induction l with
  | nil => simp
  | cons a t ih => simp [List.flatMap_cons, List.countP_append, ih]

theorem flatMap_nil_of {α β : Type} {l : List α} {g : α → List β}
    (h : ∀ x ∈ l, g x = []) : l.flatMap g = [] := by
  induction l with
  | nil => simp
  | cons a t ih =>
    simp only [List.flatMap_cons]
    rw [h a (by simp), ih (fun x hx => h x (by simp [hx]))]
    rfl

theorem flatMap_single {α β κ : Type} {l : List α} {g : α → List β} (K : α → κ)
    (hl : l.Pairwise (fun a b => K a ≠ K b)) {x : α} (hx : x ∈ l)
    (h : ∀ y ∈ l, K y ≠ K x → g y = []) : l.flatMap g = g x := by
  induction l with
  | nil => cases hx
  | cons a t ih =>
    rw [List.pairwise_cons] at hl
    simp only [List.flatMap_cons]
    rcases List.mem_cons.mp hx with rfl | hxt
    · have ht : t.flatMap g = [] := by
        apply flatMap_nil_of
        intro y hy
        exact h y (by simp [hy]) (Ne.symm (hl.1 y hy))
      rw [ht, List.append_nil]
    · have hga : g a = [] := h a (by simp) (fun hEq => hl.1 x hxt hEq)
      rw [hga, List.nil_append]
      exact ih hl.2 hxt (fun y hy hne => h y (by simp [hy]) hne)

theorem filter_eq_singleton_of {α : Type} {l : List α} {p : α → Bool} {a : α}
    {R : α → α → Prop} (hl : l.Pairwise R) (hirr : ¬ R a a) (ha : a ∈ l)
    (hp : p a = true) (hu : ∀ x ∈ l, p x = true → x = a) : l.filter p = [a] := by
  induction l with
  | nil => cases ha
  | cons b t ih =>
    rw [List.pairwise_cons] at hl
    rcases List.mem_cons.mp ha with rfl | hat
    · rw [List.filter_cons, if_pos hp]
      have ht : t.filter p = [] := by
        rw [List.filter_eq_nil_iff]
        intro y hy hpy
        exact hirr ((hu y (by simp [hy]) hpy) ▸ hl.1 y hy)
      rw [ht]
    · have hb : p b = false := by
        cases hpb : p b with
        | false => rfl
        | true =>
          exact absurd ((hu b (by simp) hpb) ▸ hl.1 a hat) hirr
      rw [List.filter_cons, if_neg (by simp [hb])]
      exact ih hl.2 hat (fun x hx hpx => hu x (by simp [hx]) hpx)

theorem filter_key_cases {α κ : Type} [DecidableEq κ] {l : List α} (K : α → κ)
    (hl : l.Pairwise (fun a b => K a ≠ K b)) (k : κ) :
    l.filter (fun x => decide (K x = k)) = [] ∨
      ∃ x, l.filter (fun x => decide (K x = k)) = [x] ∧ x ∈ l ∧ K x = k := by
  induction l with
  | nil => exact Or.inl rfl
  | cons a t ih =>
    rw [List.pairwise_cons] at hl
    by_cases hk : K a = k
    · right
      refine ⟨a, ?_, by simp, hk⟩
      rw [List.filter_cons, if_pos (by simp [hk])]
      have ht : t.filter (fun x => decide (K x = k)) = [] := by
        rw [List.filter_eq_nil_iff]
        intro y hy
        simp only [decide_eq_true_eq]
        intro hKy
        exact hl.1 y hy (hk.trans hKy.symm)
      rw [ht]
    · rw [List.filter_cons, if_neg (by simp [hk])]
      rcases ih hl.2 with h | ⟨x, hx1, hx2, hx3⟩
      · exact Or.inl h
      · exact Or.inr ⟨x, hx1, by simp [hx2], hx3⟩

theorem activeFilter_eq {table : List Row} {k : Int} {r0 : Row}
    (hk : r0.customer_id = some k) :
    (activeRows table).filter (fun t => keyMatch t r0) = activeK (some k) table := by
  rw [activeRows, List.filter_filter, activeK]
  apply List.filter_congr
  intro r _
  rw [keyMatch, hk, tvEq_isTrue_decide, tvEq_isTrue_decide, isActiveKey]

theorem pairsFor_eq_single {table : List Row} {s : CustRecord} {a : Row} {k : Int}
    (hk : s.customer_id = some k) (ha : activeK (some k) table = [a]) :
    pairsFor table s = [(toRow s, some a)] := by
  rw [pairsFor]
  have h : (activeRows table).filter (fun t => keyMatch t (toRow s)) = [a] := by
    rw [activeFilter_eq (show (toRow s).customer_id = some k from hk), ha]
  simp [h]

theorem pairsFor_eq_nomatch {table : List Row} {s : CustRecord} {k : Int}
    (hk : s.customer_id = some k) (ha : activeK (some k) table = []) :
    pairsFor table s = [(toRow s, none)] := by
  rw [pairsFor]
  have h : (activeRows table).filter (fun t => keyMatch t (toRow s)) = [] := by
    rw [activeFilter_eq (show (toRow s).customer_id = some k from hk), ha]
  simp [h]

theorem pairsFor_nullkey {table : List Row} {s : CustRecord}
    (hk : s.customer_id = none) : pairsFor table s = [(toRow s, none)] := by
  rw [pairsFor]
  have h : (activeRows table).filter (fun t => keyMatch t (toRow s)) = [] := by
    rw [List.filter_eq_nil_iff]
    intro t _
    simp [keyMatch, toRow, hk, tvEq_none_right, TV.isTrue]
  simp [h]

theorem joinedPairs_flatMap (table : List Row) (batch : List CustRecord) :
    joinedPairs table batch = batch.flatMap (pairsFor table) := by
  rw [joinedPairs, leftJoin, prepBatch, List.flatMap_map]
  rfl

theorem old_records_flatMap (table : List Row) (batch : List CustRecord) (d : Nat) :
    updated_old_records table batch d = batch.flatMap (oldContrib table d) := by
  rw [updated_old_records, joinedPairs_flatMap, List.filter_flatMap, List.map_flatMap]
  rfl

theorem new_records_flatMap (table : List Row) (batch : List CustRecord) (d : Nat) :
    updated_new_records table batch d = batch.flatMap (newContrib table d) := by
  rw [updated_new_records, joinedPairs_flatMap, List.filter_flatMap, List.map_flatMap]
  rfl

theorem nk_records_flatMap (table : List Row) (batch : List CustRecord) (d : Nat) :
    new_records table batch d = batch.flatMap (nkContrib table d) := by
  rw [new_records, joinedPairs_flatMap, List.filter_flatMap, List.map_flatMap]
  rfl

theorem changedPair_none (s' : Row) : changedPair (s', none) = false := by
  rw [changedPair, tgtOf, changeCond]
  show (tvAnd (tvEq nullRow.customer_id s'.customer_id) _).isTrue = false
  rw [show nullRow.customer_id = none from rfl, tvEq_none_left]
  exact tvAnd_u_isTrue _

theorem attrDiff_irrefl {α : Type} (a : Option α) : ¬ attrDiff a a := by
  rintro ⟨x, y, hx, hy, hxy⟩
  rw [hx] at hy
  exact hxy (Option.some.injEq x y ▸ hy)

theorem activeK_single_mem {k : Int} {table : List Row} {a : Row}
    (h : activeK (some k) table = [a]) :
    a ∈ table ∧ a.customer_id = some k ∧ a.is_active = some true := by
  have ha : a ∈ activeK (some k) table := by rw [h]; simp
  rw [activeK, List.mem_filter] at ha
  refine ⟨ha.1, ?_, ?_⟩
  · have := ha.2
    simp only [isActiveKey, Bool.and_eq_true, decide_eq_true_eq] at this
    exact this.1
  · have := ha.2
    simp only [isActiveKey, Bool.and_eq_true, decide_eq_true_eq] at this
    exact this.2

theorem pairsFor_fst {table : List Row} {s : CustRecord} :
    ∀ p ∈ pairsFor table s, p.1 = toRow s := by
  intro p hp
  rw [pairsFor] at hp
  split at hp
  · rw [List.mem_singleton] at hp
    rw [hp]
  · rw [List.mem_map] at hp
    obtain ⟨t, _, ht⟩ := hp
    rw [← ht]

theorem oldContrib_single {table : List Row} {s : CustRecord} {a : Row} {k : Int}
    (hk : s.customer_id = some k) (ha : activeK (some k) table = [a]) :
    oldContrib table d s =
      if changedPair (toRow s, some a) then [mkClosed d a] else [] := by
  rw [oldContrib, pairsFor_eq_single hk ha]
  by_cases h : changedPair (toRow s, some a) = true
  · simp [h, List.filter_cons, tgtOf]
  · simp only [Bool.not_eq_true] at h
    simp [h, List.filter_cons]

theorem newContrib_single {table : List Row} {s : CustRecord} {a : Row} {k : Int}
    (hk : s.customer_id = some k) (ha : activeK (some k) table = [a]) :
    newContrib table d s =
      if changedPair (toRow s, some a) then [mkNewVersion d (toRow s)] else [] := by
  rw [newContrib, pairsFor_eq_single hk ha]
  by_cases h : changedPair (toRow s, some a) = true
  · simp [h, List.filter_cons]
  · simp only [Bool.not_eq_true] at h
    simp [h, List.filter_cons]

theorem nkContrib_single {table : List Row} {s : CustRecord} {a : Row} {k : Int}
    (hk : s.customer_id = some k) (ha : activeK (some k) table = [a]) :
    nkContrib table d s = [] := by
  rw [nkContrib, pairsFor_eq_single hk ha]
  have hkey : a.customer_id = some k := (activeK_single_mem ha).2.1
  have : newKeyPair (toRow s, some a) = false := by
    simp [newKeyPair, tgtOf, hkey]
  simp [List.filter_cons, this]

theorem oldContrib_nomatch {table : List Row} {s : CustRecord} {k : Int}
    (hk : s.customer_id = some k) (ha : activeK (some k) table = []) :
    oldContrib table d s = [] := by
  rw [oldContrib, pairsFor_eq_nomatch hk ha]
  simp [List.filter_cons, changedPair_none]

theorem newContrib_nomatch {table : List Row} {s : CustRecord} {k : Int}
    (hk : s.customer_id = some k) (ha : activeK (some k) table = []) :
    newContrib table d s = [] := by
  rw [newContrib, pairsFor_eq_nomatch hk ha]
  simp [List.filter_cons, changedPair_none]

theorem nkContrib_nomatch {table : List Row} {s : CustRecord} {k : Int}
    (hk : s.customer_id = some k) (ha : activeK (some k) table = []) :
    nkContrib table d s = [mkNewVersion d (toRow s)] := by
  rw [nkContrib, pairsFor_eq_nomatch hk ha]
  have : newKeyPair (toRow s, none) = true := by
    simp [newKeyPair, tgtOf, nullRow, toRow, hk]
  simp [List.filter_cons, this]

theorem oldContrib_nullkey {table : List Row} {s : CustRecord}
    (hk : s.customer_id = none) : oldContrib table d s = [] := by
  rw [oldContrib, pairsFor_nullkey hk]
  simp [List.filter_cons, changedPair_none]

theorem newContrib_nullkey {table : List Row} {s : CustRecord}
    (hk : s.customer_id = none) : newContrib table d s = [] := by
  rw [newContrib, pairsFor_nullkey hk]
  simp [List.filter_cons, changedPair_none]

theorem nkContrib_nullkey {table : List Row} {s : CustRecord}
    (hk : s.customer_id = none) : nkContrib table d s = [] := by
  rw [nkContrib, pairsFor_nullkey hk]
  have : newKeyPair (toRow s, none) = false := by
    simp [newKeyPair, toRow, hk]
  simp [List.filter_cons, this]

theorem rowTuple_mkClosed (d : Nat) (t : Row) :
    rowTuple (mkClosed d t) = rowTuple t := rfl

theorem rowTuple_mkNewVersion (d : Nat) (s' : Row) :
    rowTuple (mkNewVersion d s') = rowTuple s' := rfl

theorem rowNonNull_congr {a b : Row} (h : rowTuple a = rowTuple b) :
    rowNonNull a = rowNonNull b := by
  simp only [rowTuple, Prod.mk.injEq] at h
  obtain ⟨e1, e2, e3, e4, e5, e6⟩ := h
  rw [rowNonNull, rowNonNull, e1, e2, e3, e4, e5, e6]

theorem changedPair_tuple_ne {s' t : Row} (h : changedPair (s', some t) = true) :
    rowTuple t ≠ rowTuple s' := by
  rw [changedPair] at h
  rw [changeCond_isTrue_iff] at h
  intro hEq
  simp only [rowTuple, Prod.mk.injEq] at hEq
  obtain ⟨e1, e2, e3, e4, e5, e6⟩ := hEq
  rcases h.2 with hd | hd | hd | hd | hd
  · exact attrDiff_irrefl _ (e3 ▸ hd)
  · exact attrDiff_irrefl _ (e4 ▸ hd)
  · exact attrDiff_irrefl _ (e2 ▸ hd)
  · exact attrDiff_irrefl _ (e5 ▸ hd)
  · exact attrDiff_irrefl _ (e6 ▸ hd)

theorem changedPair_key {s' t : Row} (h : changedPair (s', some t) = true) :
    ∃ k, t.customer_id = some k ∧ s'.customer_id = some k := by
  rw [changedPair] at h
  exact (changeCond_isTrue_iff.mp h).1

theorem changedPair_of_tuple_eq {s' t : Row} (h : rowTuple t = rowTuple s') :
    changedPair (s', some t) = false := by
  cases hc : changedPair (s', some t) with
  | false => rfl
  | true => exact absurd h (changedPair_tuple_ne hc)

theorem oldContrib_key {table : List Row} {d : Nat} {s : CustRecord} {c : Row}
    (hc : c ∈ oldContrib table d s) : c.customer_id = s.customer_id := by
  rw [oldContrib, List.mem_map] at hc
  obtain ⟨p, hp, hcp⟩ := hc
  rw [List.mem_filter] at hp
  obtain ⟨k, hk1, hk2⟩ := changedPair_key
    (show changedPair (p.1, p.2) = true from hp.2)
  have hfst := pairsFor_fst p hp.1
  have : p.1.customer_id = s.customer_id := by rw [hfst]; rfl
  rw [← hcp]
  show (tgtOf p.2).customer_id = s.customer_id
  have htgt : (tgtOf p.2).customer_id = some k := by
    cases hp2 : p.2 with
    | none => rw [hp2] at hk1; exact hk1
    | some t => rw [hp2] at hk1; exact hk1
  rw [htgt, ← this, hk2]

theorem newContrib_key {table : List Row} {d : Nat} {s : CustRecord} {c : Row}
    (hc : c ∈ newContrib table d s) : c.customer_id = s.customer_id := by
  rw [newContrib, List.mem_map] at hc
  obtain ⟨p, hp, hcp⟩ := hc
  rw [List.mem_filter] at hp
  have hfst := pairsFor_fst p hp.1
  rw [← hcp]
  show p.1.customer_id = s.customer_id
  rw [hfst]
  rfl

theorem nkContrib_key {table : List Row} {d : Nat} {s : CustRecord} {c : Row}
    (hc : c ∈ nkContrib table d s) : c.customer_id = s.customer_id := by
  rw [nkContrib, List.mem_map] at hc
  obtain ⟨p, hp, hcp⟩ := hc
  rw [List.mem_filter] at hp
  have hfst := pairsFor_fst p hp.1
  rw [← hcp]
  show p.1.customer_id = s.customer_id
  rw [hfst]
  rfl

theorem pairwise_ne_unique {α κ : Type} {l : List α} {f : α → κ}
    (hl : l.Pairwise (fun a b => f a ≠ f b)) {a b : α} (ha : a ∈ l) (hb : b ∈ l)
    (h : f a = f b) : a = b := by
  induction l with
  | nil => cases ha
  | cons x t ih =>
    rw [List.pairwise_cons] at hl
    rcases List.mem_cons.mp ha with rfl | hat
    · rcases List.mem_cons.mp hb with rfl | hbt
      · rfl
      · exact absurd h (hl.1 b hbt)
    · rcases List.mem_cons.mp hb with rfl | hbt
      · exact absurd h.symm (hl.1 a hat)
      · exact ih hl.2 hat hbt

theorem matchesB_key_eq {t c : Row} (h : matchesB t c = true) :
    t.customer_id = c.customer_id := by
  have := (matchesB_iff.mp h).2.2
  simp only [rowTuple, Prod.mk.injEq] at this
  exact this.1

theorem filter_matches_nil_of_keys {t : Row} {kt : Int}
    (hkt : t.customer_id = some kt) {L : List Row} {ks : Option Int}
    (hks : ks ≠ some kt) (hL : ∀ c ∈ L, c.customer_id = ks) :
    L.filter (fun c => matchesB t c) = [] := by
  rw [List.filter_eq_nil_iff]
  intro c hc hm
  have h1 := matchesB_key_eq hm
  rw [hkt, hL c hc] at h1
  exact hks h1.symm

theorem filter_matches_decomp (table : List Row) (batch : List CustRecord)
    (d : Nat) (t : Row) :
    (final_changes table batch d).filter (fun c => matchesB t c) =
      (batch.flatMap fun s => (oldContrib table d s).filter fun c => matchesB t c) ++
      ((batch.flatMap fun s => (newContrib table d s).filter fun c => matchesB t c) ++
       (batch.flatMap fun s => (nkContrib table d s).filter fun c => matchesB t c)) := by
  rw [final_changes, List.filter_append, List.filter_append,
    old_records_flatMap, new_records_flatMap, nk_records_flatMap,
    List.filter_flatMap, List.filter_flatMap, List.filter_flatMap,
    List.append_assoc]

theorem matchesB_closed_iff {table : List Row} (hW : WellFormed table)
    {t a : Row} (ht : t ∈ table) (ha : a ∈ table) {d : Nat} :
    matchesB t (mkClosed d a) = true ↔ t = a := by
  constructor
  · intro h
    have h3 := (matchesB_iff.mp h).2.2
    rw [rowTuple_mkClosed] at h3
    exact pairwise_ne_unique hW.2.1 ht ha h3
  · rintro rfl
    rw [matchesB_iff]
    have hnn := hW.1 t ht
    refine ⟨hnn, ?_, rowTuple_mkClosed d t ▸ rfl⟩
    rw [rowNonNull_congr (rowTuple_mkClosed d t)]
    exact hnn

theorem matchesB_newver_iff {table : List Row} (hW : WellFormed table)
    {t s' : Row} (ht : t ∈ table) (hnn : rowNonNull s' = true) {d : Nat} :
    matchesB t (mkNewVersion d s') = true ↔ rowTuple t = rowTuple s' := by
  constructor
  · intro h
    have h3 := (matchesB_iff.mp h).2.2
    rw [rowTuple_mkNewVersion] at h3
    exact h3
  · intro h
    rw [matchesB_iff]
    refine ⟨hW.1 t ht, ?_, rowTuple_mkNewVersion d s' ▸ h⟩
    rw [rowNonNull_congr (rowTuple_mkNewVersion d s')]
    exact hnn

theorem oldContrib_filter {table : List Row} (hW : WellFormed table)
    {t : Row} (ht : t ∈ table) {s : CustRecord} {a : Row} {kt : Int} {d : Nat}
    (hk : s.customer_id = some kt) (ha : activeK (some kt) table = [a])
    (hch : changedPair (toRow s, some a) = true) :
    (oldContrib table d s).filter (fun c => matchesB t c) =
      if t = a then [mkClosed d a] else [] := by
  rw [oldContrib_single hk ha, if_pos hch]
  have hmem := (activeK_single_mem ha).1
  by_cases hta : t = a
  · subst hta
    have hm : matchesB t (mkClosed d t) = true := (matchesB_closed_iff hW ht ht).mpr rfl
    simp [List.filter_cons, hm]
  · have : matchesB t (mkClosed d a) = false := by
      cases hm : matchesB t (mkClosed d a) with
      | false => rfl
      | true => exact absurd ((matchesB_closed_iff hW ht hmem).mp hm) hta
    simp [List.filter_cons, this, hta]

theorem newContrib_filter {table : List Row} (hW : WellFormed table)
    {t : Row} (ht : t ∈ table) {s : CustRecord} {a : Row} {kt : Int} {d : Nat}
    (hk : s.customer_id = some kt) (ha : activeK (some kt) table = [a])
    (hch : changedPair (toRow s, some a) = true)
    (hnn : rowNonNull (toRow s) = true) :
    (newContrib table d s).filter (fun c => matchesB t c) =
      if rowTuple t = rowTuple (toRow s) then [mkNewVersion d (toRow s)] else [] := by
  rw [newContrib_single hk ha, if_pos hch]
  by_cases htu : rowTuple t = rowTuple (toRow s)
  · have hm : matchesB t (mkNewVersion d (toRow s)) = true :=
      (matchesB_newver_iff hW ht hnn).mpr htu
    simp [List.filter_cons, hm, htu]
  · have : matchesB t (mkNewVersion d (toRow s)) = false := by
      cases hm : matchesB t (mkNewVersion d (toRow s)) with
      | false => rfl
      | true => exact absurd ((matchesB_newver_iff hW ht hnn).mp hm) htu
    simp [List.filter_cons, this, htu]

theorem hits_nobatch {table : List Row} {batch : List CustRecord} {d : Nat}
    {t : Row} {kt : Int} (hkt : t.customer_id = some kt)
    (hbf : ∀ s ∈ batch, s.customer_id ≠ some kt) :
    (final_changes table batch d).filter (fun c => matchesB t c) = [] := by
  rw [filter_matches_decomp]
  have h1 : (batch.flatMap fun s => (oldContrib table d s).filter fun c => matchesB t c) = [] :=
    flatMap_nil_of (fun s hs =>
      filter_matches_nil_of_keys hkt (hbf s hs) (fun c hc => oldContrib_key hc))
  have h2 : (batch.flatMap fun s => (newContrib table d s).filter fun c => matchesB t c) = [] :=
    flatMap_nil_of (fun s hs =>
      filter_matches_nil_of_keys hkt (hbf s hs) (fun c hc => newContrib_key hc))
  have h3 : (batch.flatMap fun s => (nkContrib table d s).filter fun c => matchesB t c) = [] :=
    flatMap_nil_of (fun s hs =>
      filter_matches_nil_of_keys hkt (hbf s hs) (fun c hc => nkContrib_key hc))
  rw [h1, h2, h3]
  rfl

theorem hits_batch {table : List Row} {batch : List CustRecord} {d : Nat}
    (hB : BatchOK batch) {t : Row} {kt : Int} (hkt : t.customer_id = some kt)
    {s : CustRecord} (hs : s ∈ batch) (hk : s.customer_id = some kt) :
    (final_changes table batch d).filter (fun c => matchesB t c) =
      ((oldContrib table d s).filter fun c => matchesB t c) ++
      (((newContrib table d s).filter fun c => matchesB t c) ++
       ((nkContrib table d s).filter fun c => matchesB t c)) := by
  rw [filter_matches_decomp]
  have key_ne : ∀ y ∈ batch, y.customer_id ≠ s.customer_id → ∀ (g : CustRecord → List Row),
      (∀ s2, ∀ c ∈ g s2, c.customer_id = s2.customer_id) →
      (g y).filter (fun c => matchesB t c) = [] := by
    intro y _ hne g hg
    exact filter_matches_nil_of_keys hkt (fun hEq => hne (hEq.trans hk.symm)) (hg y)
  rw [flatMap_single (fun s2 => s2.customer_id) hB.2 hs
    (fun y hy hne => key_ne y hy hne _ (fun s2 c hc => oldContrib_key hc))]
  rw [flatMap_single (fun s2 => s2.customer_id) hB.2 hs
    (fun y hy hne => key_ne y hy hne _ (fun s2 c hc => newContrib_key hc))]
  rw [flatMap_single (fun s2 => s2.customer_id) hB.2 hs
    (fun y hy hne => key_ne y hy hne _ (fun s2 c hc => nkContrib_key hc))]

theorem hits_unchanged {table : List Row} {batch : List CustRecord} {d : Nat}
    (hB : BatchOK batch) {t : Row} {kt : Int} (hkt : t.customer_id = some kt)
    {s : CustRecord} (hs : s ∈ batch) (hk : s.customer_id = some kt) {a : Row}
    (ha : activeK (some kt) table = [a])
    (hch : changedPair (toRow s, some a) = false) :
    (final_changes table batch d).filter (fun c => matchesB t c) = [] := by
  rw [hits_batch hB hkt hs hk]
  rw [oldContrib_single hk ha, newContrib_single hk ha, nkContrib_single hk ha]
  simp [hch]

theorem hits_changed {table : List Row} {batch : List CustRecord} {d : Nat}
    (hW : WellFormed table) (hB : BatchOK batch) {t : Row} (ht : t ∈ table)
    {kt : Int} (hkt : t.customer_id = some kt) {s : CustRecord} (hs : s ∈ batch)
    (hk : s.customer_id = some kt) {a : Row}
    (ha : activeK (some kt) table = [a])
    (hch : changedPair (toRow s, some a) = true)
    (hnn : rowNonNull (toRow s) = true) :
    (final_changes table batch d).filter (fun c => matchesB t c) =
      if t = a then [mkClosed d a] else
      if rowTuple t = rowTuple (toRow s) then [mkNewVersion d (toRow s)] else [] := by
  rw [hits_batch hB hkt hs hk]
  rw [oldContrib_filter hW ht hk ha hch, newContrib_filter hW ht hk ha hch hnn,
    nkContrib_single hk ha]
  by_cases hta : t = a
  · have htusrc : ¬ rowTuple t = rowTuple (toRow s) := by
      rw [hta]
      exact changedPair_tuple_ne hch
    rw [if_pos hta, if_pos hta, if_neg htusrc]
    simp
  · rw [if_neg hta, if_neg hta]
    simp

theorem key_of_tuple_eq {a b : Row} (h : rowTuple a = rowTuple b) :
    a.customer_id = b.customer_id := by
  simp only [rowTuple, Prod.mk.injEq] at h
  exact h.1

theorem tuple_ne_of_key_ne {a b : Row} (h : a.customer_id ≠ b.customer_id) :
    rowTuple a ≠ rowTuple b := fun hEq => h (key_of_tuple_eq hEq)

theorem wf_key_active {table : List Row} (hW : WellFormed table) {t : Row}
    (ht : t ∈ table) :
    ∃ kt a, t.customer_id = some kt ∧ activeK (some kt) table = [a] := by
  have hnn := hW.1 t ht
  simp only [rowNonNull, Bool.and_eq_true] at hnn
  obtain ⟨kt, hkt⟩ := Option.isSome_iff_exists.mp hnn.1.1.1.1.1
  have h3 := hW.2.2 t ht
  rw [hkt] at h3
  obtain ⟨a, ha⟩ := List.length_eq_one.mp h3
  exact ⟨kt, a, hkt, ha⟩

theorem activeK_cases {table : List Row} (hW : WellFormed table) (k : Int) :
    activeK (some k) table = [] ∨ ∃ a, activeK (some k) table = [a] := by
  cases hKl : activeK (some k) table with
  | nil => exact Or.inl rfl
  | cons a rest =>
    right
    have ha : a ∈ activeK (some k) table := by rw [hKl]; simp
    rw [activeK, List.mem_filter] at ha
    have hkey : a.customer_id = some k := by
      have := ha.2
      simp only [isActiveKey, Bool.and_eq_true, decide_eq_true_eq] at this
      exact this.1
    have h3 := hW.2.2 a ha.1
    rw [hkey, hKl] at h3
    obtain ⟨b, hb⟩ := List.length_eq_one.mp h3
    exact ⟨b, hb⟩

theorem activeK_empty_no_key {table : List Row} (hW : WellFormed table) {k : Int}
    (h : activeK (some k) table = []) : ∀ r ∈ table, r.customer_id ≠ some k := by
  intro r hr hrk
  have h3 := hW.2.2 r hr
  rw [hrk, h] at h3
  exact absurd h3 (by simp)

theorem pairsFor_snd_mem {table : List Row} {s : CustRecord} :
    ∀ p ∈ pairsFor table s, p.2 = none ∨ ∃ t', p.2 = some t' ∧ t' ∈ table := by
  intro p hp
  rw [pairsFor] at hp
  split at hp
  · rw [List.mem_singleton] at hp
    left
    rw [hp]
  · right
    rw [List.mem_map] at hp
    obtain ⟨t', ht', hpt⟩ := hp
    refine ⟨t', by rw [← hpt], ?_⟩
    rw [List.mem_filter] at ht'
    have := ht'.1
    rw [activeRows, List.mem_filter] at this
    exact this.1

theorem mem_oldContrib_shape {table : List Row} {d : Nat} {s : CustRecord} {c : Row}
    (hc : c ∈ oldContrib table d s) :
    ∃ t', t' ∈ table ∧ changedPair (toRow s, some t') = true ∧ c = mkClosed d t' := by
  rw [oldContrib, List.mem_map] at hc
  obtain ⟨p, hp, hcp⟩ := hc
  rw [List.mem_filter] at hp
  have hfst := pairsFor_fst p hp.1
  rcases pairsFor_snd_mem p hp.1 with h2 | ⟨t', ht2, htm⟩
  · exfalso
    have : changedPair (p.1, (none : Option Row)) = true := by
      rw [← h2]
      exact hp.2
    rw [changedPair_none] at this
    cases this
  · refine ⟨t', htm, ?_, ?_⟩
    · have := hp.2
      have hpe : p = (toRow s, some t') := by
        cases p
        simp only at hfst ht2
        rw [hfst, ht2]
      rw [hpe] at this
      exact this
    · rw [← hcp, ht2]
      rfl

theorem mem_newContrib_shape {table : List Row} {d : Nat} {s : CustRecord} {c : Row}
    (hc : c ∈ newContrib table d s) : c = mkNewVersion d (toRow s) := by
  rw [newContrib, List.mem_map] at hc
  obtain ⟨p, hp, hcp⟩ := hc
  rw [List.mem_filter] at hp
  have hfst := pairsFor_fst p hp.1
  rw [← hcp, hfst]

theorem mem_nkContrib_shape {table : List Row} {d : Nat} {s : CustRecord} {c : Row}
    (hc : c ∈ nkContrib table d s) : c = mkNewVersion d (toRow s) := by
  rw [nkContrib, List.mem_map] at hc
  obtain ⟨p, hp, hcp⟩ := hc
  rw [List.mem_filter] at hp
  have hfst := pairsFor_fst p hp.1
  rw [← hcp, hfst]

theorem mem_changes_record {table : List Row} {batch : List CustRecord} {d : Nat}
    {c : Row} (hc : c ∈ final_changes table batch d) :
    ∃ s' ∈ batch,
      c ∈ oldContrib table d s' ∨ c ∈ newContrib table d s' ∨
        c ∈ nkContrib table d s' := by
  rw [final_changes, List.mem_append, List.mem_append] at hc
  rcases hc with (hc | hc) | hc
  · rw [old_records_flatMap, List.mem_flatMap] at hc
    obtain ⟨s', hs', hcs⟩ := hc
    exact ⟨s', hs', Or.inl hcs⟩
  · rw [new_records_flatMap, List.mem_flatMap] at hc
    obtain ⟨s', hs', hcs⟩ := hc
    exact ⟨s', hs', Or.inr (Or.inl hcs)⟩
  · rw [nk_records_flatMap, List.mem_flatMap] at hc
    obtain ⟨s', hs', hcs⟩ := hc
    exact ⟨s', hs', Or.inr (Or.inr hcs)⟩

theorem changes_key {table : List Row} {batch : List CustRecord} {d : Nat}
    {c : Row} (hc : c ∈ final_changes table batch d) :
    ∃ s' ∈ batch, c.customer_id = s'.customer_id := by
  obtain ⟨s', hs', hcs⟩ := mem_changes_record hc
  rcases hcs with h | h | h
  · exact ⟨s', hs', oldContrib_key h⟩
  · exact ⟨s', hs', newContrib_key h⟩
  · exact ⟨s', hs', nkContrib_key h⟩

theorem changes_nonNull {table : List Row} {batch : List CustRecord} {d : Nat}
    (hW : WellFormed table) (hB : BatchOK batch) :
    ∀ c ∈ final_changes table batch d, rowNonNull c = true := by
  intro c hc
  obtain ⟨s', hs', hcs⟩ := mem_changes_record hc
  rcases hcs with h | h | h
  · obtain ⟨t', ht', _, hcEq⟩ := mem_oldContrib_shape h
    rw [hcEq, rowNonNull_congr (rowTuple_mkClosed d t')]
    exact hW.1 t' ht'
  · rw [mem_newContrib_shape h,
      rowNonNull_congr (rowTuple_mkNewVersion d (toRow s'))]
    exact hB.1 s' hs'
  · rw [mem_nkContrib_shape h,
      rowNonNull_congr (rowTuple_mkNewVersion d (toRow s'))]
    exact hB.1 s' hs'

theorem hits_spec {table : List Row} {batch : List CustRecord} {d : Nat}
    (hW : WellFormed table) (hB : BatchOK batch) {t : Row} (ht : t ∈ table) :
    (final_changes table batch d).filter (fun c => matchesB t c) = [] ∨
      ∃ c, (final_changes table batch d).filter (fun c2 => matchesB t c2) = [c] ∧
        rowTuple c = rowTuple t := by
  obtain ⟨kt, a, hkt, ha⟩ := wf_key_active hW ht
  by_cases hbex : ∃ s ∈ batch, s.customer_id = some kt
  · obtain ⟨s, hs, hk⟩ := hbex
    by_cases hch : changedPair (toRow s, some a) = true
    · rw [hits_changed hW hB ht hkt hs hk ha hch (hB.1 s hs)]
      by_cases hta : t = a
      · right
        exact ⟨mkClosed d a, if_pos hta,
          by rw [rowTuple_mkClosed, hta]⟩
      · rw [if_neg hta]
        by_cases htu : rowTuple t = rowTuple (toRow s)
        · right
          exact ⟨mkNewVersion d (toRow s), if_pos htu,
            by rw [rowTuple_mkNewVersion, htu]⟩
        · left
          rw [if_neg htu]
    · left
      exact hits_unchanged hB hkt hs hk ha (by simpa using hch)
  · left
    exact hits_nobatch hkt (fun s hs hkeq => hbex ⟨s, hs, hkeq⟩)

theorem merge_changes_some {table : List Row} {batch : List CustRecord} {d : Nat}
    (hW : WellFormed table) (hB : BatchOK batch) :
    deltaMerge table (final_changes table batch d) =
      some (mergedResult table (final_changes table batch d)) := by
  rw [deltaMerge, if_pos]
  rw [List.all_eq_true]
  intro t ht
  rcases hits_spec (d := d) hW hB ht with h | ⟨c, h, _⟩
  · rw [h]
    rfl
  · rw [h]
    rfl

theorem mergeStep_of_hits_nil {changes : List Row} {t : Row}
    (h : changes.filter (fun c => matchesB t c) = []) :
    mergeStep changes t = t := by
  rw [mergeStep, h]

theorem mergeStep_of_hits_one {changes : List Row} {t c : Row}
    (h : changes.filter (fun c2 => matchesB t c2) = [c]) :
    mergeStep changes t = c := by
  rw [mergeStep, h]

theorem mergeStep_tuple {table : List Row} {batch : List CustRecord} {d : Nat}
    (hW : WellFormed table) (hB : BatchOK batch) {t : Row} (ht : t ∈ table) :
    rowTuple (mergeStep (final_changes table batch d) t) = rowTuple t := by
  rcases hits_spec (d := d) hW hB ht with h | ⟨c, h, hc⟩
  · rw [mergeStep_of_hits_nil h]
  · rw [mergeStep_of_hits_one h, hc]

theorem map_sum_single {α κ : Type} {l : List α} (K : α → κ)
    (hl : l.Pairwise (fun a b => K a ≠ K b)) {x : α} (hx : x ∈ l) {g : α → Nat}
    (h : ∀ y ∈ l, K y ≠ K x → g y = 0) : (l.map g).sum = g x := by
  induction l with
  | nil => cases hx
  | cons a t ih =>
    rw [List.pairwise_cons] at hl
    simp only [List.map_cons, List.sum_cons]
    rcases List.mem_cons.mp hx with rfl | hxt
    · have ht : (t.map g).sum = 0 := by
        rw [List.sum_eq_zero_iff]
        intro n hn
        rw [List.mem_map] at hn
        obtain ⟨y, hy, hyn⟩ := hn
        rw [← hyn]
        exact h y (by simp [hy]) (Ne.symm (hl.1 y hy))
      rw [ht]
      exact Nat.add_zero _
    · have hga : g a = 0 := h a (by simp) (fun hEq => hl.1 x hxt hEq)
      rw [hga, ih hl.2 hxt (fun y hy hne => h y (by simp [hy]) hne)]
      exact Nat.zero_add _

theorem record_key_some {s : CustRecord} (hnn : rowNonNull (toRow s) = true) :
    ∃ k, s.customer_id = some k := by
  simp only [rowNonNull, Bool.and_eq_true] at hnn
  have : (toRow s).customer_id.isSome = true := hnn.1.1.1.1.1
  exact Option.isSome_iff_exists.mp this

theorem batch_key_unique {batch : List CustRecord} (hB : BatchOK batch)
    {s1 s2 : CustRecord} (h1 : s1 ∈ batch) (h2 : s2 ∈ batch)
    (h : s1.customer_id = s2.customer_id) : s1 = s2 :=
  pairwise_ne_unique hB.2 h1 h2 h

theorem changes_pairwise {table : List Row} {batch : List CustRecord} {d : Nat}
    (hW : WellFormed table) (hB : BatchOK batch) :
    (final_changes table batch d).Pairwise (fun a b => rowTuple a ≠ rowTuple b) := by
  have hsingles : ∀ s ∈ batch,
      (oldContrib table d s).Pairwise (fun a b => rowTuple a ≠ rowTuple b) ∧
      (newContrib table d s).Pairwise (fun a b => rowTuple a ≠ rowTuple b) ∧
      (nkContrib table d s).Pairwise (fun a b => rowTuple a ≠ rowTuple b) := by
    intro s hs
    obtain ⟨k, hk⟩ := record_key_some (hB.1 s hs)
    rcases activeK_cases hW k with hA | ⟨a, hA⟩
    · rw [oldContrib_nomatch hk hA, newContrib_nomatch hk hA, nkContrib_nomatch hk hA]
      exact ⟨List.Pairwise.nil, List.Pairwise.nil, List.pairwise_singleton _ _⟩
    · rw [oldContrib_single hk hA, newContrib_single hk hA, nkContrib_single hk hA]
      refine ⟨?_, ?_, List.Pairwise.nil⟩ <;> split <;>
        first
          | exact List.pairwise_singleton _ _
          | exact List.Pairwise.nil
  have hkey_cross : ∀ (f g : CustRecord → List Row),
      (∀ s2, ∀ c ∈ f s2, c.customer_id = s2.customer_id) →
      (∀ s2, ∀ c ∈ g s2, c.customer_id = s2.customer_id) →
      ∀ s1 ∈ batch, ∀ s2 ∈ batch, s1.customer_id ≠ s2.customer_id →
      ∀ a ∈ f s1, ∀ b ∈ g s2, rowTuple a ≠ rowTuple b := by
    intro f g hf hg s1 _ s2 _ hne a ha b hb
    apply tuple_ne_of_key_ne
    rw [hf s1 a ha, hg s2 b hb]
    exact hne
  have hsame_oldnew : ∀ s ∈ batch, ∀ a ∈ oldContrib table d s,
      ∀ b ∈ newContrib table d s, rowTuple a ≠ rowTuple b := by
    intro s _ a ha b hb
    obtain ⟨t', _, hch, hac⟩ := mem_oldContrib_shape ha
    rw [mem_newContrib_shape hb, hac, rowTuple_mkClosed, rowTuple_mkNewVersion]
    exact changedPair_tuple_ne hch
  have hsame_nk_excl : ∀ s ∈ batch,
      (oldContrib table d s = [] ∧ newContrib table d s = []) ∨
        nkContrib table d s = [] := by
    intro s hs
    obtain ⟨k, hk⟩ := record_key_some (hB.1 s hs)
    rcases activeK_cases hW k with hA | ⟨a, hA⟩
    · exact Or.inl ⟨oldContrib_nomatch hk hA, newContrib_nomatch hk hA⟩
    · exact Or.inr (nkContrib_single hk hA)
  have hgroup : ∀ (f : CustRecord → List Row),
      (∀ s2, ∀ c ∈ f s2, c.customer_id = s2.customer_id) →
      (∀ s2 ∈ batch, (f s2).Pairwise (fun a b => rowTuple a ≠ rowTuple b)) →
      (batch.flatMap f).Pairwise (fun a b => rowTuple a ≠ rowTuple b) := by
    intro f hf hp
    rw [List.pairwise_flatMap]
    refine ⟨hp, ?_⟩
    apply List.Pairwise.imp_of_mem (fun {s1 s2} h1 h2 hne => ?_) hB.2
    intro a ha b hb
    apply tuple_ne_of_key_ne
    rw [hf s1 a ha, hf s2 b hb]
    exact hne
  have hcross : ∀ (f g : CustRecord → List Row),
      (∀ s2, ∀ c ∈ f s2, c.customer_id = s2.customer_id) →
      (∀ s2, ∀ c ∈ g s2, c.customer_id = s2.customer_id) →
      (∀ s2 ∈ batch, ∀ a ∈ f s2, ∀ b ∈ g s2, rowTuple a ≠ rowTuple b) →
      ∀ a ∈ batch.flatMap f, ∀ b ∈ batch.flatMap g, rowTuple a ≠ rowTuple b := by
    intro f g hf hg hsame a ha b hb
    rw [List.mem_flatMap] at ha hb
    obtain ⟨s1, hs1, ha1⟩ := ha
    obtain ⟨s2, hs2, hb2⟩ := hb
    by_cases hEq : s1 = s2
    · subst hEq
      exact hsame s1 hs1 a ha1 b hb2
    · have hne : s1.customer_id ≠ s2.customer_id := by
        intro hkeq
        exact hEq (batch_key_unique hB hs1 hs2 hkeq)
      exact hkey_cross f g hf hg s1 hs1 s2 hs2 hne a ha1 b hb2
  rw [final_changes, old_records_flatMap, new_records_flatMap, nk_records_flatMap]
  rw [List.pairwise_append]
  refine ⟨?_, ?_, ?_⟩
  · rw [List.pairwise_append]
    refine ⟨?_, ?_, ?_⟩
    · exact hgroup _ (fun s2 c hc => oldContrib_key hc)
        (fun s2 hs2 => (hsingles s2 hs2).1)
    · exact hgroup _ (fun s2 c hc => newContrib_key hc)
        (fun s2 hs2 => (hsingles s2 hs2).2.1)
    · exact hcross _ _ (fun s2 c hc => oldContrib_key hc)
        (fun s2 c hc => newContrib_key hc) hsame_oldnew
  · exact hgroup _ (fun s2 c hc => nkContrib_key hc)
      (fun s2 hs2 => (hsingles s2 hs2).2.2)
  · intro a ha b hb
    rw [List.mem_append] at ha
    have hnkshape : ∀ s2 ∈ batch, ∀ a2 ∈ oldContrib table d s2 ++ newContrib table d s2,
        ∀ b2 ∈ nkContrib table d s2, rowTuple a2 ≠ rowTuple b2 := by
      intro s2 hs2 a2 ha2 b2 hb2
      rcases hsame_nk_excl s2 hs2 with ⟨h1, h2⟩ | h3
      · rw [List.mem_append, h1, h2] at ha2
        rcases ha2 with h | h <;> cases h
      · rw [h3] at hb2
        cases hb2
    rcases ha with ha | ha
    · exact hcross _ _ (fun s2 c hc => oldContrib_key hc)
        (fun s2 c hc => nkContrib_key hc)
        (fun s2 hs2 a2 ha2 b2 hb2 =>
          hnkshape s2 hs2 a2 (List.mem_append.mpr (Or.inl ha2)) b2 hb2) a ha b hb
    · exact hcross _ _ (fun s2 c hc => newContrib_key hc)
        (fun s2 c hc => nkContrib_key hc)
        (fun s2 hs2 a2 ha2 b2 hb2 =>
          hnkshape s2 hs2 a2 (List.mem_append.mpr (Or.inr ha2)) b2 hb2) a ha b hb

theorem mem_inserts {table changes : List Row} {c : Row}
    (hc : c ∈ mergeInserts table changes) :
    c ∈ changes ∧ ∀ t ∈ table, matchesB t c = false := by
  rw [mergeInserts, List.mem_filter] at hc
  refine ⟨hc.1, ?_⟩
  have := hc.2
  rw [Bool.not_eq_true'] at this
  intro t ht
  exact Bool.not_eq_true _ ▸ (List.any_eq_false.mp this t ht)

theorem result_pairwise {table : List Row} {batch : List CustRecord} {d : Nat}
    (hW : WellFormed table) (hB : BatchOK batch) :
    (mergedResult table (final_changes table batch d)).Pairwise
      (fun a b => rowTuple a ≠ rowTuple b) := by
  rw [mergedResult, List.pairwise_append]
  refine ⟨?_, ?_, ?_⟩
  · rw [List.pairwise_map]
    apply List.Pairwise.imp_of_mem (fun {t1 t2} h1 h2 hne => ?_) hW.2.1
    rw [@mergeStep_tuple table batch d hW hB t1 h1,
      @mergeStep_tuple table batch d hW hB t2 h2]
    exact hne
  · exact List.Pairwise.filter _ (changes_pairwise hW hB)
  · intro a ha b hb
    rw [List.mem_map] at ha
    obtain ⟨t, ht, hat⟩ := ha
    obtain ⟨hbc, hbm⟩ := mem_inserts hb
    rw [← hat, mergeStep_tuple hW hB ht]
    intro hEq
    have : matchesB t b = true := by
      rw [matchesB_iff]
      exact ⟨hW.1 t ht, changes_nonNull hW hB b hbc, hEq⟩
    rw [hbm t ht] at this
    cases this

theorem isActiveKey_false_of_key {k : Option Int} {r : Row}
    (h : r.customer_id ≠ k) : isActiveKey k r = false := by
  simp [isActiveKey, h]

theorem isActiveKey_mkClosed (k : Option Int) (d : Nat) (x : Row) :
    isActiveKey k (mkClosed d x) = false := by
  simp [isActiveKey, mkClosed]

theorem isActiveKey_mkNewVersion (k : Option Int) (d : Nat) (s' : Row) :
    isActiveKey k (mkNewVersion d s') = decide (s'.customer_id = k) := by
  simp [isActiveKey, mkNewVersion]

theorem isActiveKey_true_iff {k : Option Int} {r : Row} :
    isActiveKey k r = true ↔ r.customer_id = k ∧ r.is_active = some true := by
  simp [isActiveKey]

theorem not_active_of_single {table : List Row} {k : Int} {a t : Row}
    (hA : activeK (some k) table = [a]) (ht : t ∈ table) (hta : t ≠ a) :
    isActiveKey (some k) t = false := by
  cases h : isActiveKey (some k) t with
  | false => rfl
  | true =>
    have hmem : t ∈ activeK (some k) table := List.mem_filter.mpr ⟨ht, h⟩
    rw [hA, List.mem_singleton] at hmem
    exact absurd hmem hta

theorem mergeStep_key {table : List Row} {batch : List CustRecord} {d : Nat}
    (hW : WellFormed table) (hB : BatchOK batch) {t : Row} (ht : t ∈ table) :
    (mergeStep (final_changes table batch d) t).customer_id = t.customer_id :=
  key_of_tuple_eq (mergeStep_tuple hW hB ht)

theorem countP_changes (table : List Row) (batch : List CustRecord) (d : Nat)
    (p : Row → Bool) :
    (final_changes table batch d).countP p =
      (batch.map (fun s2 => (oldContrib table d s2).countP p)).sum +
      (batch.map (fun s2 => (newContrib table d s2).countP p)).sum +
      (batch.map (fun s2 => (nkContrib table d s2).countP p)).sum := by
  rw [final_changes, List.countP_append, List.countP_append,
    old_records_flatMap, new_records_flatMap, nk_records_flatMap,
    countP_flatMap, countP_flatMap, countP_flatMap]

theorem countP_inserts (table changes : List Row) (p : Row → Bool) :
    (mergeInserts table changes).countP p =
      changes.countP (fun c => p c && !(table.any fun t => matchesB t c)) := by
  rw [mergeInserts, List.countP_filter]

theorem contrib_countP_zero {L : List Row} {ks : Option Int}
    (hkeys : ∀ c ∈ L, c.customer_id = ks) {k : Int} (hne : ks ≠ some k)
    (q : Row → Bool) :
    L.countP (fun c => isActiveKey (some k) c && q c) = 0 := by
  rw [List.countP_eq_zero]
  intro c hc hp
  rw [Bool.and_eq_true] at hp
  have := (isActiveKey_true_iff.mp hp.1).1
  rw [hkeys c hc] at this
  exact hne this

theorem result_count_key {table : List Row} {batch : List CustRecord} {d : Nat}
    (hW : WellFormed table) (hB : BatchOK batch) {k : Int}
    (hpres : (∃ t ∈ table, t.customer_id = some k) ∨
      ∃ s ∈ batch, s.customer_id = some k) :
    (activeK (some k) (mergedResult table (final_changes table batch d))).length
      = 1 := by
  rw [activeK, ← List.countP_eq_length_filter, mergedResult, List.countP_append,
    List.countP_map]
  by_cases hbex : ∃ s ∈ batch, s.customer_id = some k
  case neg =>
    obtain ⟨t0, ht0, hk0⟩ := hpres.resolve_right hbex
    have hmap : List.countP (isActiveKey (some k) ∘
        mergeStep (final_changes table batch d)) table =
        List.countP (isActiveKey (some k)) table := by
      apply List.countP_congr
      intro t ht
      simp only [Function.comp_apply]
      by_cases hkt : t.customer_id = some k
      · rw [mergeStep_of_hits_nil
          (hits_nobatch hkt (fun s2 hs2 hkeq => hbex ⟨s2, hs2, hkeq⟩))]
      · rw [isActiveKey_false_of_key hkt, isActiveKey_false_of_key
          (fun h => hkt ((mergeStep_key hW hB ht) ▸ h))]
    have hins : List.countP (isActiveKey (some k))
        (mergeInserts table (final_changes table batch d)) = 0 := by
      rw [List.countP_eq_zero]
      intro c hc hp
      have hck := (isActiveKey_true_iff.mp hp).1
      obtain ⟨s', hs', hkey⟩ := changes_key (mem_inserts hc).1
      exact hbex ⟨s', hs', by rw [← hkey]; exact hck⟩
    rw [hmap, hins, Nat.add_zero, List.countP_eq_length_filter]
    show (activeK (some k) table).length = 1
    have h3 := hW.2.2 t0 ht0
    rw [hk0] at h3
    exact h3
  case pos =>
    obtain ⟨s, hs, hk⟩ := hbex
    have hnn := hB.1 s hs
    have hsrckey : (toRow s).customer_id = some k := hk
    rcases activeK_cases hW k with hA | ⟨a, hA⟩
    · have hnokey := activeK_empty_no_key hW hA
      have hmap : List.countP (isActiveKey (some k) ∘
          mergeStep (final_changes table batch d)) table = 0 := by
        rw [List.countP_eq_zero]
        intro t ht hp
        simp only [Function.comp_apply] at hp
        rw [isActiveKey_false_of_key
          (fun h => hnokey t ht ((mergeStep_key hW hB ht) ▸ h))] at hp
        cases hp
      have hins : List.countP (isActiveKey (some k))
          (mergeInserts table (final_changes table batch d)) = 1 := by
        rw [countP_inserts, countP_changes]
        have hold : (batch.map (fun s2 => (oldContrib table d s2).countP
            (fun c => isActiveKey (some k) c &&
              !(table.any fun t => matchesB t c)))).sum = 0 := by
          rw [List.sum_eq_zero_iff]
          intro n hn
          rw [List.mem_map] at hn
          obtain ⟨s2, hs2, hn2⟩ := hn
          rw [← hn2, List.countP_eq_zero]
          intro c hc hp
          obtain ⟨t', _, _, hcEq⟩ := mem_oldContrib_shape hc
          rw [Bool.and_eq_true, hcEq, isActiveKey_mkClosed] at hp
          cases hp.1
        have hnew : (batch.map (fun s2 => (newContrib table d s2).countP
            (fun c => isActiveKey (some k) c &&
              !(table.any fun t => matchesB t c)))).sum = 0 := by
          rw [List.sum_eq_zero_iff]
          intro n hn
          rw [List.mem_map] at hn
          obtain ⟨s2, hs2, hn2⟩ := hn
          rw [← hn2]
          by_cases hk2 : s2.customer_id = some k
          · have hseq : s2 = s := batch_key_unique hB hs2 hs (hk2.trans hk.symm)
            rw [hseq, newContrib_nomatch hk hA, List.countP_nil]
          · exact contrib_countP_zero (fun c hc => newContrib_key hc) hk2 _
        have hnk : (batch.map (fun s2 => (nkContrib table d s2).countP
            (fun c => isActiveKey (some k) c &&
              !(table.any fun t => matchesB t c)))).sum = 1 := by
          rw [map_sum_single (fun s2 => s2.customer_id) hB.2 hs
            (fun y hy hne => contrib_countP_zero (fun c hc => nkContrib_key hc)
              (fun h => hne (h.trans hk.symm)) _)]
          rw [nkContrib_nomatch hk hA]
          have hia : isActiveKey (some k) (mkNewVersion d (toRow s)) = true := by
            rw [isActiveKey_mkNewVersion]
            simp [hsrckey]
          have hnm : (table.any fun t =>
              matchesB t (mkNewVersion d (toRow s))) = false := by
            rw [List.any_eq_false]
            intro t ht hm
            have := matchesB_key_eq hm
            exact hnokey t ht (by rw [this]; exact hsrckey)
          simp [List.countP_cons, hia, hnm]
        rw [hold, hnew, hnk]
      rw [hmap, hins]
    · by_cases hch : changedPair (toRow s, some a) = true
      case neg =>
        have hchf : changedPair (toRow s, some a) = false := by simpa using hch
        have hmap : List.countP (isActiveKey (some k) ∘
            mergeStep (final_changes table batch d)) table =
            List.countP (isActiveKey (some k)) table := by
          apply List.countP_congr
          intro t ht
          simp only [Function.comp_apply]
          by_cases hkt : t.customer_id = some k
          · rw [mergeStep_of_hits_nil (hits_unchanged hB hkt hs hk hA hchf)]
          · rw [isActiveKey_false_of_key hkt, isActiveKey_false_of_key
              (fun h => hkt ((mergeStep_key hW hB ht) ▸ h))]
        have hins : List.countP (isActiveKey (some k))
            (mergeInserts table (final_changes table batch d)) = 0 := by
          rw [List.countP_eq_zero]
          intro c hc hp
          have hck := (isActiveKey_true_iff.mp hp).1
          obtain ⟨s', hs', hcs⟩ := mem_changes_record (mem_inserts hc).1
          have hkey' : c.customer_id = s'.customer_id := by
            rcases hcs with h | h | h
            · exact oldContrib_key h
            · exact newContrib_key h
            · exact nkContrib_key h
          have hseq : s' = s := batch_key_unique hB hs' hs
            ((hkey' ▸ hck : s'.customer_id = some k).trans hk.symm)
          rw [hseq] at hcs
          rcases hcs with h | h | h
          · rw [oldContrib_single hk hA, if_neg (by simp [hchf])] at h
            cases h
          · rw [newContrib_single hk hA, if_neg (by simp [hchf])] at h
            cases h
          · rw [nkContrib_single hk hA] at h
            cases h
        rw [hmap, hins, Nat.add_zero, List.countP_eq_length_filter]
        show (activeK (some k) table).length = 1
        rw [hA]
        rfl
      case pos =>
        have hmap : List.countP (isActiveKey (some k) ∘
            mergeStep (final_changes table batch d)) table =
            List.countP (fun t => decide (rowTuple t = rowTuple (toRow s)))
              table := by
          apply List.countP_congr
          intro t ht
          simp only [Function.comp_apply]
          by_cases hkt : t.customer_id = some k
          · have hhits := hits_changed (d := d) hW hB ht hkt hs hk hA hch hnn
            by_cases hta : t = a
            · rw [if_pos hta] at hhits
              rw [mergeStep_of_hits_one hhits, isActiveKey_mkClosed]
              have : ¬ rowTuple t = rowTuple (toRow s) := by
                rw [hta]
                exact changedPair_tuple_ne hch
              simp [this]
            · rw [if_neg hta] at hhits
              by_cases htu : rowTuple t = rowTuple (toRow s)
              · rw [if_pos htu] at hhits
                rw [mergeStep_of_hits_one hhits, isActiveKey_mkNewVersion]
                simp [hsrckey, htu]
              · rw [if_neg htu] at hhits
                rw [mergeStep_of_hits_nil hhits,
                  not_active_of_single hA ht hta]
                simp [htu]
          · have h1 : isActiveKey (some k)
                (mergeStep (final_changes table batch d) t) = false :=
              isActiveKey_false_of_key
                (fun h => hkt ((mergeStep_key hW hB ht) ▸ h))
            have h2 : ¬ rowTuple t = rowTuple (toRow s) := by
              intro hEq
              exact hkt (by rw [key_of_tuple_eq hEq]; exact hsrckey)
            rw [h1]
            simp [h2]
        by_cases hcol : ∃ t0 ∈ table, rowTuple t0 = rowTuple (toRow s)
        · obtain ⟨t0, ht0, htup0⟩ := hcol
          have hmapval : List.countP
              (fun t => decide (rowTuple t = rowTuple (toRow s))) table = 1 := by
            rw [List.countP_eq_length_filter]
            rw [filter_eq_singleton_of hW.2.1 (fun h => h rfl) ht0
              (by simp [htup0])
              (fun x hx hpx => pairwise_ne_unique hW.2.1 hx ht0
                (by
                  rw [htup0]
                  exact of_decide_eq_true hpx))]
            rfl
          have hins : List.countP (isActiveKey (some k))
              (mergeInserts table (final_changes table batch d)) = 0 := by
            rw [List.countP_eq_zero]
            intro c hc hp
            have hck := (isActiveKey_true_iff.mp hp).1
            obtain ⟨hcch, hnomatch⟩ := mem_inserts hc
            obtain ⟨s', hs', hcs⟩ := mem_changes_record hcch
            have hkey' : c.customer_id = s'.customer_id := by
              rcases hcs with h | h | h
              · exact oldContrib_key h
              · exact newContrib_key h
              · exact nkContrib_key h
            have hseq : s' = s := batch_key_unique hB hs' hs
              ((hkey' ▸ hck : s'.customer_id = some k).trans hk.symm)
            rw [hseq] at hcs
            rcases hcs with h | h | h
            · obtain ⟨t', _, _, hcEq⟩ := mem_oldContrib_shape h
              rw [hcEq] at hp
              rw [isActiveKey_true_iff] at hp
              have : (mkClosed d t').is_active = some true := hp.2
              simp [mkClosed] at this
            · rw [mem_newContrib_shape h] at hnomatch
              have := (matchesB_newver_iff (d := d) hW ht0 hnn).mpr htup0
              rw [hnomatch t0 ht0] at this
              cases this
            · rw [nkContrib_single hk hA] at h
              cases h
          rw [hmap, hmapval, hins]
        · have hmapval : List.countP
              (fun t => decide (rowTuple t = rowTuple (toRow s))) table = 0 := by
            rw [List.countP_eq_zero]
            intro t ht hp
            exact hcol ⟨t, ht, of_decide_eq_true hp⟩
          have hins : List.countP (isActiveKey (some k))
              (mergeInserts table (final_changes table batch d)) = 1 := by
            rw [countP_inserts, countP_changes]
            have hold : (batch.map (fun s2 => (oldContrib table d s2).countP
                (fun c => isActiveKey (some k) c &&
                  !(table.any fun t => matchesB t c)))).sum = 0 := by
              rw [List.sum_eq_zero_iff]
              intro n hn
              rw [List.mem_map] at hn
              obtain ⟨s2, hs2, hn2⟩ := hn
              rw [← hn2, List.countP_eq_zero]
              intro c hc hp
              obtain ⟨t', _, _, hcEq⟩ := mem_oldContrib_shape hc
              rw [Bool.and_eq_true, hcEq, isActiveKey_mkClosed] at hp
              cases hp.1
            have hnew : (batch.map (fun s2 => (newContrib table d s2).countP
                (fun c => isActiveKey (some k) c &&
                  !(table.any fun t => matchesB t c)))).sum = 1 := by
              rw [map_sum_single (fun s2 => s2.customer_id) hB.2 hs
                (fun y hy hne => contrib_countP_zero
                  (fun c hc => newContrib_key hc)
                  (fun h => hne (h.trans hk.symm)) _)]
              rw [newContrib_single hk hA, if_pos hch]
              have hia : isActiveKey (some k) (mkNewVersion d (toRow s)) = true := by
                rw [isActiveKey_mkNewVersion]
                simp [hsrckey]
              have hnm : (table.any fun t =>
                  matchesB t (mkNewVersion d (toRow s))) = false := by
                rw [List.any_eq_false]
                intro t ht hm
                exact hcol ⟨t, ht, (matchesB_newver_iff hW ht hnn).mp hm⟩
              simp [List.countP_cons, hia, hnm]
            have hnk : (batch.map (fun s2 => (nkContrib table d s2).countP
                (fun c => isActiveKey (some k) c &&
                  !(table.any fun t => matchesB t c)))).sum = 0 := by
              rw [List.sum_eq_zero_iff]
              intro n hn
              rw [List.mem_map] at hn
              obtain ⟨s2, hs2, hn2⟩ := hn
              rw [← hn2]
              by_cases hk2 : s2.customer_id = some k
              · have hseq : s2 = s := batch_key_unique hB hs2 hs (hk2.trans hk.symm)
                rw [hseq, nkContrib_single hk hA, List.countP_nil]
              · exact contrib_countP_zero (fun c hc => nkContrib_key hc) hk2 _
            rw [hold, hnew, hnk]
          rw [hmap, hmapval, hins]

theorem merged_wf {table : List Row} {batch : List CustRecord} {d : Nat}
    (hW : WellFormed table) (hB : BatchOK batch) :
    WellFormed (mergedResult table (final_changes table batch d)) := by
  refine ⟨?_, result_pairwise hW hB, ?_⟩
  · intro r hr
    rw [mergedResult, List.mem_append] at hr
    rcases hr with hr | hr
    · rw [List.mem_map] at hr
      obtain ⟨t, ht, hrt⟩ := hr
      rw [← hrt, rowNonNull_congr (mergeStep_tuple hW hB ht)]
      exact hW.1 t ht
    · exact changes_nonNull hW hB r (mem_inserts hr).1
  · intro r hr
    have hr2 := hr
    rw [mergedResult, List.mem_append] at hr2
    rcases hr2 with hrm | hri
    · rw [List.mem_map] at hrm
      obtain ⟨t, ht, hrt⟩ := hrm
      obtain ⟨kt, a, hkt, _⟩ := wf_key_active hW ht
      have hkey : r.customer_id = some kt := by
        rw [← hrt, mergeStep_key hW hB ht, hkt]
      rw [hkey]
      exact result_count_key hW hB (Or.inl ⟨t, ht, hkt⟩)
    · obtain ⟨s', hs', hkey⟩ := changes_key (mem_inserts hri).1
      obtain ⟨k, hk⟩ := record_key_some (hB.1 s' hs')
      have hkr : r.customer_id = some k := by rw [hkey, hk]
      rw [hkr]
      exact result_count_key hW hB (Or.inr ⟨s', hs', hk⟩)

theorem scd_run_preserves_wf {table : List Row} {batch : List CustRecord}
    {d : Nat} (hW : WellFormed table) (hB : BatchOK batch) :
    ∃ res, scdRun table batch d = some res ∧ WellFormed res := by
  by_cases hempty : batch = []
  · exact ⟨table, by simp [scdRun, scdRunT, hempty], hW⟩
  · refine ⟨mergedResult table (final_changes table batch d), ?_, merged_wf hW hB⟩
    rw [scdRun, scdRunT, if_neg hempty, merge_changes_some hW hB]
    rfl

theorem runSeq_preserves_wf {batches : List (List CustRecord × Nat)} :
    ∀ {table : List Row}, WellFormed table → (∀ b ∈ batches, BatchOK b.1) →
      ∃ res, runSeq table batches = some res ∧ WellFormed res := by
  induction batches with
  | nil => exact fun hW _ => ⟨_, rfl, hW⟩
  | cons b bs ih =>
    intro table hW hB
    obtain ⟨t1, ht1, hw1⟩ := scd_run_preserves_wf hW (hB b (by simp))
    obtain ⟨res, hres, hwres⟩ := ih hw1 (fun b2 hb2 => hB b2 (by simp [hb2]))
    exact ⟨res, by rw [runSeq, ht1]; exact hres, hwres⟩

theorem mergeStep_nil (t : Row) : mergeStep [] t = t := rfl

theorem deltaMerge_nil (tbl : List Row) : deltaMerge tbl [] = some tbl := by
  rw [deltaMerge, if_pos]
  · rw [mergedResult, mergeInserts]
    have h1 : tbl.map (mergeStep []) = tbl := by
      have h2 : tbl.map (mergeStep []) = tbl.map id :=
        List.map_congr_left (fun a _ => rfl)
      rw [h2, List.map_id]
    rw [h1]
    simp
  · rw [List.all_eq_true]
    intro t _
    simp

theorem eq_singleton_of_len {α : Type} {l : List α} {w : α}
    (hlen : l.length = 1) (hw : w ∈ l) : l = [w] := by
  obtain ⟨x, hx⟩ := List.length_eq_one.mp hlen
  rw [hx] at hw
  rw [List.mem_singleton] at hw
  rw [hx, hw]

theorem mem_joined_some {table : List Row} {batch : List CustRecord}
    {s' t : Row} (h : (s', some t) ∈ joinedPairs table batch) :
    keyMatch t s' = true ∧ t ∈ table := by
  rw [joinedPairs_flatMap, List.mem_flatMap] at h
  obtain ⟨s2, _, hp⟩ := h
  rw [pairsFor] at hp
  split at hp
  · rw [List.mem_singleton, Prod.mk.injEq] at hp
    cases hp.2
  · rw [List.mem_map] at hp
    obtain ⟨t2, ht2, hEq⟩ := hp
    rw [Prod.mk.injEq] at hEq
    obtain ⟨hs2, ht2eq⟩ := hEq
    have ht2t : t2 = t := Option.some.inj ht2eq
    rw [List.mem_filter] at ht2
    have htm : t2 ∈ table := by
      have := ht2.1
      rw [activeRows, List.mem_filter] at this
      exact this.1
    rw [← hs2, ← ht2t]
    exact ⟨ht2.2, htm⟩

theorem newver_mem_changes {table : List Row} {batch : List CustRecord} {d : Nat}
    {s : CustRecord} (hs : s ∈ batch) {k : Int} (hk : s.customer_id = some k)
    (hcase : (∃ a, activeK (some k) table = [a] ∧
        changedPair (toRow s, some a) = true) ∨ activeK (some k) table = []) :
    mkNewVersion d (toRow s) ∈ final_changes table batch d := by
  rw [final_changes, List.mem_append, List.mem_append]
  rcases hcase with ⟨a, hA, hch⟩ | hA
  · left
    right
    rw [new_records_flatMap, List.mem_flatMap]
    refine ⟨s, hs, ?_⟩
    rw [newContrib_single hk hA, if_pos hch]
    simp
  · right
    rw [nk_records_flatMap, List.mem_flatMap]
    refine ⟨s, hs, ?_⟩
    rw [nkContrib_nomatch hk hA]
    simp

theorem active_after_spec {table : List Row} {batch : List CustRecord} {d : Nat}
    (hW : WellFormed table) (hB : BatchOK batch) {s : CustRecord} {k : Int}
    (hs : s ∈ batch) (hk : s.customer_id = some k) :
    (∃ a, activeK (some k) table = [a] ∧
       changedPair (toRow s, some a) = false ∧
       activeK (some k) (mergedResult table (final_changes table batch d)) = [a]) ∨
    activeK (some k) (mergedResult table (final_changes table batch d)) =
      [mkNewVersion d (toRow s)] := by
  have hnn := hB.1 s hs
  have hsrckey : (toRow s).customer_id = some k := hk
  have hlen := result_count_key (d := d) hW hB (Or.inr ⟨s, hs, hk⟩)
  rcases activeK_cases hW k with hA | ⟨a, hA⟩
  · right
    have hnokey := activeK_empty_no_key hW hA
    have hmem : mkNewVersion d (toRow s) ∈
        mergedResult table (final_changes table batch d) := by
      rw [mergedResult, List.mem_append]
      right
      rw [mergeInserts, List.mem_filter]
      refine ⟨newver_mem_changes hs hk (Or.inr hA), ?_⟩
      rw [Bool.not_eq_true', List.any_eq_false]
      intro t ht hm
      have := matchesB_key_eq hm
      exact (hnokey t ht) (by rw [this]; exact hsrckey)
    exact eq_singleton_of_len hlen (List.mem_filter.mpr ⟨hmem,
      by rw [isActiveKey_mkNewVersion]; simp [hsrckey]⟩)
  · by_cases hch : changedPair (toRow s, some a) = true
    · right
      obtain ⟨ham, hakey, haact⟩ := activeK_single_mem hA
      by_cases hcol : ∃ t0 ∈ table, rowTuple t0 = rowTuple (toRow s)
      · obtain ⟨t0, ht0, htup0⟩ := hcol
        have ht0k : t0.customer_id = some k := by
          rw [key_of_tuple_eq htup0]
          exact hsrckey
        have ht0a : t0 ≠ a := by
          intro hEq
          exact changedPair_tuple_ne hch (by rw [← hEq]; exact htup0)
        have hhits := hits_changed (d := d) hW hB ht0 ht0k hs hk hA hch hnn
        rw [if_neg ht0a, if_pos htup0] at hhits
        have hmem : mkNewVersion d (toRow s) ∈
            mergedResult table (final_changes table batch d) := by
          rw [mergedResult, List.mem_append]
          left
          rw [List.mem_map]
          exact ⟨t0, ht0, mergeStep_of_hits_one hhits⟩
        exact eq_singleton_of_len hlen (List.mem_filter.mpr ⟨hmem,
          by rw [isActiveKey_mkNewVersion]; simp [hsrckey]⟩)
      · have hmem : mkNewVersion d (toRow s) ∈
            mergedResult table (final_changes table batch d) := by
          rw [mergedResult, List.mem_append]
          right
          rw [mergeInserts, List.mem_filter]
          refine ⟨newver_mem_changes hs hk (Or.inl ⟨a, hA, hch⟩), ?_⟩
          rw [Bool.not_eq_true', List.any_eq_false]
          intro t ht hm
          exact hcol ⟨t, ht, (matchesB_newver_iff hW ht hnn).mp hm⟩
        exact eq_singleton_of_len hlen (List.mem_filter.mpr ⟨hmem,
          by rw [isActiveKey_mkNewVersion]; simp [hsrckey]⟩)
    · left
      have hchf : changedPair (toRow s, some a) = false := by simpa using hch
      refine ⟨a, hA, hchf, ?_⟩
      obtain ⟨ham, hakey, haact⟩ := activeK_single_mem hA
      have hstep : mergeStep (final_changes table batch d) a = a :=
        mergeStep_of_hits_nil (hits_unchanged hB hakey hs hk hA hchf)
      have hmem : a ∈ mergedResult table (final_changes table batch d) := by
        rw [mergedResult, List.mem_append]
        left
        rw [List.mem_map]
        exact ⟨a, ham, hstep⟩
      exact eq_singleton_of_len hlen (List.mem_filter.mpr ⟨hmem,
        isActiveKey_true_iff.mpr ⟨hakey, haact⟩⟩)

theorem second_changes_nil {table : List Row} {batch : List CustRecord}
    {d d2 : Nat} (hW : WellFormed table) (hB : BatchOK batch) :
    final_changes (mergedResult table (final_changes table batch d)) batch d2
      = [] := by
  rw [final_changes, old_records_flatMap, new_records_flatMap, nk_records_flatMap]
  have hcontrib : ∀ s ∈ batch, ∃ ares k, s.customer_id = some k ∧
      activeK (some k) (mergedResult table (final_changes table batch d)) = [ares] ∧
      changedPair (toRow s, some ares) = false := by
    intro s hs
    obtain ⟨k, hk⟩ := record_key_some (hB.1 s hs)
    rcases active_after_spec (d := d) hW hB hs hk with ⟨a, _, hchf, hres⟩ | hres
    · exact ⟨a, k, hk, hres, hchf⟩
    · exact ⟨mkNewVersion d (toRow s), k, hk, hres,
        changedPair_of_tuple_eq (rowTuple_mkNewVersion d (toRow s))⟩
  have h1 : ∀ s ∈ batch,
      oldContrib (mergedResult table (final_changes table batch d)) d2 s = [] := by
    intro s hs
    obtain ⟨ares, k, hk, hres, hchf⟩ := hcontrib s hs
    rw [oldContrib_single hk hres, if_neg (by simp [hchf])]
  have h2 : ∀ s ∈ batch,
      newContrib (mergedResult table (final_changes table batch d)) d2 s = [] := by
    intro s hs
    obtain ⟨ares, k, hk, hres, hchf⟩ := hcontrib s hs
    rw [newContrib_single hk hres, if_neg (by simp [hchf])]
  have h3 : ∀ s ∈ batch,
      nkContrib (mergedResult table (final_changes table batch d)) d2 s = [] := by
    intro s hs
    obtain ⟨ares, k, hk, hres, hchf⟩ := hcontrib s hs
    rw [nkContrib_single hk hres]
  rw [flatMap_nil_of h1, flatMap_nil_of h2, flatMap_nil_of h3]
  rfl

theorem scd_run_idem {table : List Row} {batch : List CustRecord} {d d2 : Nat}
    (hW : WellFormed table) (hB : BatchOK batch) {res : List Row}
    (hrun : scdRun table batch d = some res) :
    scdRun res batch d2 = some res := by
  by_cases hempty : batch = []
  · rw [scdRun, scdRunT, if_pos hempty]
    rfl
  · have hres : res = mergedResult table (final_changes table batch d) := by
      rw [scdRun, scdRunT, if_neg hempty, merge_changes_some hW hB] at hrun
      exact (Option.some.inj hrun).symm
    rw [scdRun, scdRunT, if_neg hempty, hres, second_changes_nil hW hB,
      deltaMerge_nil]
    rfl

theorem flatMap_eq_flatMap_filter {α β : Type} {l : List α} {g : α → List β}
    {p : α → Bool} (h : ∀ x ∈ l, p x = false → g x = []) :
    l.flatMap g = (l.filter p).flatMap g := by
  induction l with
  | nil => rfl
  | cons a t ih =>
    rw [List.flatMap_cons, List.filter_cons]
    cases hpa : p a with
    | true =>
      rw [if_pos (by simp), List.flatMap_cons,
        ih (fun x hx hpx => h x (by simp [hx]) hpx)]
    | false =>
      rw [if_neg (by simp), h a (by simp) hpa, List.nil_append,
        ih (fun x hx hpx => h x (by simp [hx]) hpx)]

theorem changes_drop_nullkey (table : List Row) (batch : List CustRecord)
    (d : Nat) :
    final_changes table batch d =
      final_changes table (batch.filter (fun s => s.customer_id.isSome)) d := by
  have hnull : ∀ (s : CustRecord), s.customer_id.isSome = false →
      s.customer_id = none := by
    intro s h
    cases hv : s.customer_id with
    | none => rfl
    | some v => rw [hv] at h; cases h
  rw [final_changes, final_changes,
    old_records_flatMap, new_records_flatMap, nk_records_flatMap,
    old_records_flatMap, new_records_flatMap, nk_records_flatMap]
  rw [← flatMap_eq_flatMap_filter
      (fun s _ hp => oldContrib_nullkey (hnull s hp)),
    ← flatMap_eq_flatMap_filter
      (fun s _ hp => newContrib_nullkey (hnull s hp)),
    ← flatMap_eq_flatMap_filter
      (fun s _ hp => nkContrib_nullkey (hnull s hp))]

theorem optLe_total (a b : Option Nat) : optLe a b = true ∨ optLe b a = true := by
  cases a <;> cases b <;> simp [optLe] <;> omega

theorem optLe_trans {a b c : Option Nat} (h1 : optLe a b = true)
    (h2 : optLe b c = true) : optLe a c = true := by
  cases a <;> cases b <;> cases c <;> simp_all [optLe] <;> omega

theorem pickupLe_total (a b : ExtractRow) :
    pickupLe a b = true ∨ pickupLe b a = true :=
  optLe_total a.pickup_date b.pickup_date

theorem pickupLe_trans {a b c : ExtractRow} (h1 : pickupLe a b = true)
    (h2 : pickupLe b c = true) : pickupLe a c = true :=
  optLe_trans h1 h2

theorem mem_insertSorted {x y : ExtractRow} {l : List ExtractRow} :
    y ∈ insertSorted x l ↔ y = x ∨ y ∈ l := by
  induction l with
  | nil => simp [insertSorted]
  | cons z zs ih =>
    rw [insertSorted]
    split
    · simp [List.mem_cons]
    · rw [List.mem_cons, ih, List.mem_cons]
      tauto

theorem insertSorted_pairwise {x : ExtractRow} {l : List ExtractRow}
    (hl : l.Pairwise (fun a b => pickupLe a b = true)) :
    (insertSorted x l).Pairwise (fun a b => pickupLe a b = true) := by
  induction l with
  | nil => exact List.pairwise_singleton _ _
  | cons z zs ih =>
    rw [List.pairwise_cons] at hl
    rw [insertSorted]
    split
    · rw [List.pairwise_cons]
      constructor
      · intro w hw
        rw [List.mem_cons] at hw
        rcases hw with rfl | hw
        · assumption
        · exact pickupLe_trans (by assumption) (hl.1 w hw)
      · exact List.pairwise_cons.mpr hl
    · rw [List.pairwise_cons]
      constructor
      · intro w hw
        rw [mem_insertSorted] at hw
        rcases hw with rfl | hw
        · rcases pickupLe_total w z with h | h
          · exact absurd h (by assumption)
          · exact h
        · exact hl.1 w hw
      · exact ih hl.2

theorem sortByPickup_pairwise (l : List ExtractRow) :
    (sortByPickup l).Pairwise (fun a b => pickupLe a b = true) := by
  induction l with
  | nil => exact List.Pairwise.nil
  | cons x xs ih => exact insertSorted_pairwise ih

theorem mem_sortByPickup {y : ExtractRow} {l : List ExtractRow} :
    y ∈ sortByPickup l ↔ y ∈ l := by
  induction l with
  | nil => rfl
  | cons x xs ih =>
    rw [sortByPickup, mem_insertSorted, ih, List.mem_cons]

theorem count_insertSorted (x y : ExtractRow) (l : List ExtractRow) :
    (insertSorted x l).count y = (x :: l).count y := by
  induction l with
  | nil => rfl
  | cons z zs ih =>
    rw [insertSorted]
    split
    · rfl
    · rw [List.count_cons, ih, List.count_cons, List.count_cons, List.count_cons]
      omega

theorem count_sortByPickup (y : ExtractRow) (l : List ExtractRow) :
    (sortByPickup l).count y = l.count y := by
  induction l with
  | nil => rfl
  | cons x xs ih =>
    rw [sortByPickup, count_insertSorted, List.count_cons, List.count_cons, ih]

theorem tvGt_isTrue_iff {a : Option Nat} {today : Nat} :
    (tvGt a (some today)).isTrue = true ↔ ∃ p, a = some p ∧ today < p := by
  cases a with
  | none => simp [tvGt, TV.isTrue]
  | some x =>
    rw [tvGt]
    constructor
    · intro h
      refine ⟨x, rfl, ?_⟩
      by_contra hlt
      rw [if_neg hlt] at h
      cases h
    · rintro ⟨p, hp, hlt⟩
      have : p = x := Option.some.inj hp.symm
      rw [if_pos (this ▸ hlt)]
      rfl

theorem mem_futureOrdersQuery {ordersTbl : List OrderRow} {dimTbl : List Row}
    {today : Nat} {r : ExtractRow} :
    r ∈ futureOrdersQuery ordersTbl dimTbl today ↔
      ∃ c ∈ dimTbl, ∃ o ∈ ordersTbl, c.is_active = some true ∧
        (∃ k, c.customer_id = some k ∧ o.customer_id = some k) ∧
        (∃ p, o.pickup_date = some p ∧ today < p) ∧ r = projectRow c o := by
  rw [futureOrdersQuery, mem_sortByPickup, List.mem_flatMap]
  constructor
  · rintro ⟨c, hc, hr⟩
    rw [List.mem_filter] at hc
    rw [List.mem_map] at hr
    obtain ⟨o, ho, hor⟩ := hr
    rw [List.mem_filter] at ho
    obtain ⟨ho1, ho2⟩ := ho
    rw [List.mem_filter] at ho1
    refine ⟨c, hc.1, o, ho1.1, ?_, ?_, ?_, hor.symm⟩
    · have := hc.2
      rw [tvEq_isTrue_decide, decide_eq_true_eq] at this
      exact this
    · have := ho2
      rw [TV.isTrue_iff, tvEq_eq_t] at this
      exact this
    · exact tvGt_isTrue_iff.mp ho1.2
  · rintro ⟨c, hc, o, ho, hact, hkey, hfut, hr⟩
    refine ⟨c, ?_, ?_⟩
    · rw [List.mem_filter]
      exact ⟨hc, by rw [tvEq_isTrue_decide, decide_eq_true_eq]; exact hact⟩
    · rw [List.mem_map]
      refine ⟨o, ?_, hr.symm⟩
      rw [List.mem_filter]
      refine ⟨?_, by rw [TV.isTrue_iff, tvEq_eq_t]; exact hkey⟩
      rw [List.mem_filter]
      exact ⟨ho, tvGt_isTrue_iff.mpr hfut⟩

/-- C3 counterexample: for a joined pair with equal keys, equal names, phone
and order count, where the stored email is NULL and the incoming email is
non-NULL, the claim says the pair counts as changed; the code classifies it
as NOT changed, because `tgt.email != src.email` is UNKNOWN in three-valued
logic and the whole filter condition never becomes TRUE. -/
theorem change_predicate_null_cex :
    exNullCmpTgt.email = none ∧ (toRow exNullCmpSrc).email = some "new" ∧
    exNullCmpTgt.customer_id = some 1 ∧
    (toRow exNullCmpSrc).customer_id = some 1 ∧
    exNullCmpTgt.first_name = (toRow exNullCmpSrc).first_name ∧
    exNullCmpTgt.last_name = (toRow exNullCmpSrc).last_name ∧
    exNullCmpTgt.phone = (toRow exNullCmpSrc).phone ∧
    exNullCmpTgt.number_of_orders = (toRow exNullCmpSrc).number_of_orders ∧
    (changeCond (toRow exNullCmpSrc) exNullCmpTgt).isTrue = false ∧
    changedPair (toRow exNullCmpSrc, some exNullCmpTgt) = false := by
  decide

/-- C3 (amended): a joined pair is classified as changed if and only if the
keys match and at least one tracked attribute (first_name, last_name, email,
phone, number_of_orders) differs with BOTH sides non-NULL; an attribute that
is NULL on one side and non-NULL on the other does NOT count as a
difference, and updated_at takes no part in the comparison. -/
theorem change_predicate_characterization :
    ∀ s t : Row,
      ((changeCond s t).isTrue = true ↔
        (∃ k, t.customer_id = some k ∧ s.customer_id = some k) ∧
        (attrDiff t.first_name s.first_name ∨ attrDiff t.last_name s.last_name ∨
         attrDiff t.email s.email ∨ attrDiff t.phone s.phone ∨
         attrDiff t.number_of_orders s.number_of_orders)) ∧
      (∀ x y : Option Nat,
        changeCond { s with updated_at := x } { t with updated_at := y } =
          changeCond s t) :=
  fun s t => ⟨changeCond_isTrue_iff, fun x y => rfl⟩

/-- C4: every changed joined pair produces exactly one closed-version row
(target attributes and start date, end date = run date, inactive) and exactly
one new-version row (source attributes, start = run date, end = sentinel,
active) in the changeset, and nothing in the new-key group. -/
theorem scd_changed_pair_rows (table : List Row) (batch : List CustRecord)
    (d : Nat) (s' t : Row) (hpair : (s', some t) ∈ joinedPairs table batch)
    (hch : changedPair (s', some t) = true) :
    mkClosed d t ∈ final_changes table batch d ∧
    mkNewVersion d s' ∈ final_changes table batch d ∧
    (mkClosed d t).customer_id = t.customer_id ∧
    (mkClosed d t).email = t.email ∧
    (mkClosed d t).first_name = t.first_name ∧
    (mkClosed d t).last_name = t.last_name ∧
    (mkClosed d t).phone = t.phone ∧
    (mkClosed d t).number_of_orders = t.number_of_orders ∧
    (mkClosed d t).updated_at = t.updated_at ∧
    (mkClosed d t).effective_start_date = t.effective_start_date ∧
    (mkClosed d t).effective_end_date = some d ∧
    (mkClosed d t).is_active = some false ∧
    (mkNewVersion d s').customer_id = s'.customer_id ∧
    (mkNewVersion d s').email = s'.email ∧
    (mkNewVersion d s').first_name = s'.first_name ∧
    (mkNewVersion d s').last_name = s'.last_name ∧
    (mkNewVersion d s').phone = s'.phone ∧
    (mkNewVersion d s').number_of_orders = s'.number_of_orders ∧
    (mkNewVersion d s').updated_at = s'.updated_at ∧
    (mkNewVersion d s').effective_start_date = some d ∧
    (mkNewVersion d s').effective_end_date = some sentinelDate ∧
    (mkNewVersion d s').is_active = some true ∧
    (updated_old_records table batch d).length =
      ((joinedPairs table batch).filter changedPair).length ∧
    (updated_new_records table batch d).length =
      ((joinedPairs table batch).filter changedPair).length ∧
    (s', some t) ∉ (joinedPairs table batch).filter newKeyPair := by
  have hmemch : (s', some t) ∈ (joinedPairs table batch).filter changedPair :=
    List.mem_filter.mpr ⟨hpair, hch⟩
  refine ⟨?_, ?_, rfl, rfl, rfl, rfl, rfl, rfl, rfl, rfl, rfl, rfl, rfl, rfl,
    rfl, rfl, rfl, rfl, rfl, rfl, rfl, rfl, ?_, ?_, ?_⟩
  · rw [final_changes, List.mem_append, List.mem_append]
    left
    left
    rw [updated_old_records, List.mem_map]
    exact ⟨(s', some t), hmemch, rfl⟩
  · rw [final_changes, List.mem_append, List.mem_append]
    left
    right
    rw [updated_new_records, List.mem_map]
    exact ⟨(s', some t), hmemch, rfl⟩
  · rw [updated_old_records]
    exact List.length_map _ _
  · rw [updated_new_records]
    exact List.length_map _ _
  · intro hmem
    rw [List.mem_filter] at hmem
    have hnk := hmem.2
    rw [newKeyPair] at hnk
    have hkm := (mem_joined_some hpair).1
    rw [keyMatch, TV.isTrue_iff, tvEq_eq_t] at hkm
    obtain ⟨k, hk1, _⟩ := hkm
    rw [Bool.and_eq_true] at hnk
    have : (tgtOf ((s', some t).2)).customer_id.isNone = true := hnk.2
    rw [show tgtOf ((s', some t).2) = t from rfl, hk1] at this
    cases this

/-- C4 witness: a concrete changed pair and both of its changeset rows. -/
theorem scd_changed_pair_rows_witness :
    mkClosed 200 exWfRow ∈ final_changes [exWfRow] [exWfRec] 200 ∧
    mkNewVersion 200 (toRow exWfRec) ∈ final_changes [exWfRow] [exWfRec] 200 ∧
    (updated_old_records [exWfRow] [exWfRec] 200).length =
      ((joinedPairs [exWfRow] [exWfRec]).filter changedPair).length := by
  have h := scd_changed_pair_rows [exWfRow] [exWfRec] 200 (toRow exWfRec)
    exWfRow (by decide) (by decide)
  exact ⟨h.1, h.2.1, h.2.2.2.2.2.2.2.2.2.2.2.2.2.2.2.2.2.2.2.2.2.2.1⟩

/-- C5: an empty extracted batch is a no-op: the run returns the dimension
table unchanged, reports that the merge was never invoked, and the job as a
whole returns success without touching the crawler. -/
theorem empty_batch_noop (table : List Row) (d : Nat) (cb : CrawlerOutcome) :
    scdRunT table [] d = some (table, false) ∧
    scdRun table [] d = some table ∧
    scdJob table [] d cb = Except.ok table :=
  ⟨rfl, rfl, rfl⟩

/-- C8: the Derived Extract Builder inner-joins future-dated fact rows
(`pickup_date` strictly after the query clock) to active dimension rows on
the natural key, projects the fixed field list, orders by `pickup_date`
ascending, and overwrites the target table: the written result is exactly
the query output, independent of previous content, element for element. -/
theorem future_orders_semantics (ordersTbl : List OrderRow) (dimTbl : List Row)
    (today : Nat) :
    (∀ r, r ∈ futureOrdersQuery ordersTbl dimTbl today ↔
      ∃ c ∈ dimTbl, ∃ o ∈ ordersTbl, c.is_active = some true ∧
        (∃ k, c.customer_id = some k ∧ o.customer_id = some k) ∧
        (∃ p, o.pickup_date = some p ∧ today < p) ∧ r = projectRow c o) ∧
    (futureOrdersQuery ordersTbl dimTbl today).Pairwise
      (fun a b => pickupLe a b = true) ∧
    (∀ r, (futureOrdersQuery ordersTbl dimTbl today).count r =
      ((dimTbl.filter (fun c => (tvEq c.is_active (some true)).isTrue)).flatMap
        (fun c =>
          (((ordersTbl.filter
              (fun o => (tvGt o.pickup_date (some today)).isTrue)).filter
            (fun o => (tvEq c.customer_id o.customer_id).isTrue)).map
              (fun o => projectRow c o)))).count r) ∧
    (∀ (oldTbl : List ExtractRow) (cb : CrawlerOutcome),
      (future_orders_etl_job oldTbl ordersTbl dimTbl today cb).1 =
        futureOrdersQuery ordersTbl dimTbl today) :=
  ⟨fun r => mem_futureOrdersQuery, sortByPickup_pairwise _,
    fun r => count_sortByPickup r _, fun oldTbl cb => rfl⟩

/-- C9: the catalog-refresh trigger swallows every error of the underlying
crawler client, so it never raises; consequently once the merge has
committed, the job returns the committed table no matter how the crawler
call turns out, and the outcome of the crawler never changes the job
result. -/
theorem crawler_refresh_nonfatal :
    (∀ b : CrawlerOutcome, runGlueCrawler b = Except.ok ()) ∧
    (∀ (table : List Row) (batch : List CustRecord) (d : Nat)
      (b1 b2 : CrawlerOutcome), scdJob table batch d b1 = scdJob table batch d b2) ∧
    (∀ (table : List Row) (batch : List CustRecord) (d : Nat)
      (res : List Row) (b1 : CrawlerOutcome),
      scdRun table batch d = some res → scdJob table batch d b1 = Except.ok res) := by
  have hok : ∀ b : CrawlerOutcome, runGlueCrawler b = Except.ok () := by
    intro b
    cases b with
    | started r => rfl
    | alreadyRunning => rfl
    | failed m =>
      rw [runGlueCrawler, startGlueCrawler]
      split
      · rfl
      · split_ifs <;> rfl
  refine ⟨hok, ?_, ?_⟩
  · intro table batch d b1 b2
    rw [scdJob, scdJob]
    by_cases hempty : batch = []
    · rw [if_pos hempty, if_pos hempty]
    · rw [if_neg hempty, if_neg hempty]
      cases deltaMerge table (final_changes table batch d) with
      | none => rfl
      | some res => rw [hok b1, hok b2]
  · intro table batch d res b1 hrun
    rw [scdRun, scdRunT] at hrun
    rw [scdJob]
    by_cases hempty : batch = []
    · rw [if_pos hempty] at hrun
      rw [if_pos hempty]
      have hres : table = res := by simpa using hrun
      rw [hres]
    · rw [if_neg hempty] at hrun
      rw [if_neg hempty]
      cases hmerge : deltaMerge table (final_changes table batch d) with
      | none => rw [hmerge] at hrun; cases hrun
      | some r0 =>
        rw [hmerge] at hrun
        have hres : r0 = res := by simpa using hrun
        rw [hok b1, hres]

/-- C9 witness: with a failing crawler client, a concrete job still commits
and returns the merged table. -/
theorem crawler_refresh_nonfatal_witness :
    scdJob [exWfRow] [exWfRec] 200 (CrawlerOutcome.failed "boom") =
      Except.ok (mergedResult [exWfRow] (final_changes [exWfRow] [exWfRec] 200)) ∧
    runGlueCrawler (CrawlerOutcome.failed "boom") = Except.ok () :=
  ⟨crawler_refresh_nonfatal.2.2 [exWfRow] [exWfRec] 200
      (mergedResult [exWfRow] (final_changes [exWfRow] [exWfRec] 200))
      (CrawlerOutcome.failed "boom") (by decide),
    crawler_refresh_nonfatal.1 (CrawlerOutcome.failed "boom")⟩

/-- C10: a batch record whose natural key is NULL joins no active dimension
row, lands in none of the three changeset groups (the changeset equals the
changeset of the batch with NULL-key records removed), and a run over such
records mutates nothing and reports no error. -/
theorem nullkey_records_dropped :
    (∀ (table : List Row) (batch : List CustRecord) (d : Nat),
      final_changes table batch d =
        final_changes table (batch.filter (fun s => s.customer_id.isSome)) d) ∧
    (∀ (table : List Row) (batch : List CustRecord) (s : CustRecord),
      s.customer_id = none → ∀ a : Row, (toRow s, some a) ∉ joinedPairs table batch) ∧
    (∀ (table : List Row) (batch : List CustRecord) (d : Nat),
      batch ≠ [] → (∀ s ∈ batch, s.customer_id = none) →
      scdRunT table batch d = some (table, true)) := by
  refine ⟨changes_drop_nullkey, ?_, ?_⟩
  · intro table batch s hnullk a hmem
    have hkm := (mem_joined_some hmem).1
    rw [keyMatch, show (toRow s).customer_id = s.customer_id from rfl, hnullk,
      tvEq_none_right] at hkm
    cases hkm
  · intro table batch d hne hall
    have hempty : final_changes table batch d = [] := by
      rw [changes_drop_nullkey]
      have hfilter : batch.filter (fun s => s.customer_id.isSome) = [] := by
        rw [List.filter_eq_nil_iff]
        intro s hs
        rw [hall s hs]
        simp
      rw [hfilter, final_changes, old_records_flatMap, new_records_flatMap,
        nk_records_flatMap]
      rfl
    rw [scdRunT, if_neg hne, hempty, deltaMerge_nil]
    rfl

/-- C10 witness: the concrete NULL-key record is dropped and the run is a
successful no-write. -/
theorem nullkey_records_dropped_witness :
    final_changes [exWfRow] [exNullKeyRec] 7 =
      final_changes [exWfRow]
        ([exNullKeyRec].filter (fun s => s.customer_id.isSome)) 7 ∧
    ((toRow exNullKeyRec, some exWfRow) ∉ joinedPairs [exWfRow] [exNullKeyRec]) ∧
    scdRunT [exWfRow] [exNullKeyRec] 7 = some ([exWfRow], true) :=
  ⟨nullkey_records_dropped.1 [exWfRow] [exNullKeyRec] 7,
    nullkey_records_dropped.2.1 [exWfRow] [exNullKeyRec] exNullKeyRec rfl exWfRow,
    nullkey_records_dropped.2.2 [exWfRow] [exNullKeyRec] 7 (by decide)
      (fun s hs => by
        rw [List.mem_singleton] at hs
        rw [hs]
        rfl)⟩

/-- C1 counterexample: starting from the empty table (which satisfies the
single-active invariant vacuously) with a batch holding two records for the
same brand-new key 2, the run succeeds and leaves TWO active rows for key 2:
both records land in the new-key group and are both inserted. -/
theorem single_active_cex :
    WellFormed ([] : List Row) ∧
    (scdRun [] [exDupA, exDupB] 20240601).isSome = true ∧
    (scdRun [] [exDupA, exDupB] 20240601).map
      (fun res => (activeK (some 2) res).length) = some 2 := by
  decide

/-- C1 (amended): provided every run starts from a well-formed table (all
merge-compared columns non-NULL, no two rows share the full key+attribute
tuple, and every present key has exactly one active row) and every batch has
non-NULL keys and attributes with at most one record per key, any sequence
of Reconciler runs succeeds and ends in a well-formed table; in particular
every natural key present in the final table has exactly one row with
`is_active = true`. -/
theorem single_active_invariant (table : List Row)
    (batches : List (List CustRecord × Nat)) (hW : WellFormed table)
    (hB : ∀ b ∈ batches, BatchOK b.1) :
    ∃ res, runSeq table batches = some res ∧ WellFormed res ∧
      ∀ r ∈ res, (activeK r.customer_id res).length = 1 := by
  obtain ⟨res, h1, h2⟩ := runSeq_preserves_wf hW hB
  exact ⟨res, h1, h2, h2.2.2⟩

/-- C1 witness: the amended invariant instantiated on a concrete one-row
table and a one-record changed batch. -/
theorem single_active_invariant_witness :
    WellFormed [exWfRow] ∧
    ∃ res, runSeq [exWfRow] [([exWfRec], 200)] = some res ∧ WellFormed res ∧
      ∀ r ∈ res, (activeK r.customer_id res).length = 1 :=
  ⟨by decide,
    single_active_invariant [exWfRow] [([exWfRec], 200)] (by decide)
      (fun b hb => by
        rw [List.mem_singleton] at hb
        rw [hb]
        exact (by decide : BatchOK [exWfRec]))⟩

/-- C2 counterexample: with history customer 1 = (A closed, B active) and a
batch flipping the customer back to A, the new-version row carries exactly
the attribute values of the closed historical row, MATCHES it under the
merge predicate, and is applied as an update: the post-merge table still has
2 rows (the history row was overwritten), not the 3 the claim implies. -/
theorem merge_routing_cex :
    mkNewVersion 70 (toRow exFlipRec) ∈
      final_changes [exHistRow, exActRow] [exFlipRec] 70 ∧
    exHistRow ∈ ([exHistRow, exActRow] : List Row) ∧
    matchesB exHistRow (mkNewVersion 70 (toRow exFlipRec)) = true ∧
    (scdRun [exHistRow, exActRow] [exFlipRec] 70).map List.length = some 2 := by
  decide

/-- C2 (amended): over a well-formed table and batch, and provided no
inactive stored row repeats the full key+attribute tuple of a batch record,
the merge routes exactly as the claim says: each closed-version row matches
precisely the active row it supersedes and is applied as the update of that
row, every new-version and new-key row matches no stored row and is
inserted, and the merge succeeds. Without the no-repeat proviso a
new-version row whose values reappear in history is applied as an update of
the old historical row instead of an insert. -/
theorem scd_merge_routing (table : List Row) (batch : List CustRecord) (d : Nat)
    (hW : WellFormed table) (hB : BatchOK batch)
    (hH : ∀ s ∈ batch, ∀ t ∈ table, t.is_active ≠ some true →
      rowTuple t ≠ rowTuple (toRow s)) :
    (∀ s ∈ batch, ∀ (a : Row) (kt : Int), s.customer_id = some kt →
      activeK (some kt) table = [a] → changedPair (toRow s, some a) = true →
      table.filter (fun t => matchesB t (mkClosed d a)) = [a] ∧
      mergeStep (final_changes table batch d) a = mkClosed d a) ∧
    (∀ c ∈ updated_new_records table batch d ++ new_records table batch d,
      (∀ t ∈ table, matchesB t c = false) ∧
      c ∈ mergeInserts table (final_changes table batch d)) ∧
    deltaMerge table (final_changes table batch d) =
      some (mergedResult table (final_changes table batch d)) := by
  refine ⟨?_, ?_, merge_changes_some hW hB⟩
  · intro s hs a kt hk hA hch
    obtain ⟨ham, hakey, _⟩ := activeK_single_mem hA
    constructor
    · exact filter_eq_singleton_of hW.2.1 (fun h => h rfl) ham
        ((matchesB_closed_iff hW ham ham).mpr rfl)
        (fun x hx hpx => (matchesB_closed_iff hW hx ham).mp hpx)
    · have hhits := hits_changed (d := d) hW hB ham hakey hs hk hA hch (hB.1 s hs)
      rw [if_pos rfl] at hhits
      exact mergeStep_of_hits_one hhits
  · intro c hc
    have hmemch : c ∈ final_changes table batch d := by
      rw [final_changes, List.mem_append, List.mem_append]
      rw [List.mem_append] at hc
      rcases hc with h | h
      · exact Or.inl (Or.inr h)
      · exact Or.inr h
    have hnomatch : ∀ t ∈ table, matchesB t c = false := by
      rw [List.mem_append] at hc
      rcases hc with hc | hc
      · rw [new_records_flatMap, List.mem_flatMap] at hc
        obtain ⟨s', hs', hcs⟩ := hc
        have hcEq := mem_newContrib_shape hcs
        obtain ⟨k', hk'⟩ := record_key_some (hB.1 s' hs')
        rcases activeK_cases hW k' with hA' | ⟨a', hA'⟩
        · rw [newContrib_nomatch hk' hA'] at hcs
          cases hcs
        · by_cases hch' : changedPair (toRow s', some a') = true
          · intro t ht
            cases hm : matchesB t c with
            | false => rfl
            | true =>
              exfalso
              rw [hcEq] at hm
              have htup := (matchesB_newver_iff hW ht (hB.1 s' hs')).mp hm
              by_cases hact : t.is_active = some true
              · have htk : t.customer_id = some k' := by
                  rw [key_of_tuple_eq htup]
                  exact hk'
                have hmem2 : t ∈ activeK (some k') table :=
                  List.mem_filter.mpr ⟨ht, isActiveKey_true_iff.mpr ⟨htk, hact⟩⟩
                rw [hA', List.mem_singleton] at hmem2
                exact changedPair_tuple_ne hch' (hmem2 ▸ htup)
              · exact hH s' hs' t ht hact htup
          · rw [newContrib_single hk' hA', if_neg hch'] at hcs
            cases hcs
      · rw [nk_records_flatMap, List.mem_flatMap] at hc
        obtain ⟨s', hs', hcs⟩ := hc
        have hcEq := mem_nkContrib_shape hcs
        obtain ⟨k', hk'⟩ := record_key_some (hB.1 s' hs')
        rcases activeK_cases hW k' with hA' | ⟨a', hA'⟩
        · intro t ht
          cases hm : matchesB t c with
          | false => rfl
          | true =>
            exfalso
            have hkeq := matchesB_key_eq hm
            rw [hcEq] at hkeq
            exact activeK_empty_no_key hW hA' t ht (by rw [hkeq]; exact hk')
        · rw [nkContrib_single hk' hA'] at hcs
          cases hcs
    refine ⟨hnomatch, ?_⟩
    rw [mergeInserts, List.mem_filter]
    refine ⟨hmemch, ?_⟩
    rw [Bool.not_eq_true', List.any_eq_false]
    intro t ht hm
    rw [hnomatch t ht] at hm
    cases hm

/-- C2 witness: routing on a concrete one-row table with one changed
record. -/
theorem scd_merge_routing_witness :
    ([exWfRow].filter (fun t => matchesB t (mkClosed 200 exWfRow)) = [exWfRow] ∧
      mergeStep (final_changes [exWfRow] [exWfRec] 200) exWfRow =
        mkClosed 200 exWfRow) ∧
    deltaMerge [exWfRow] (final_changes [exWfRow] [exWfRec] 200) =
      some (mergedResult [exWfRow] (final_changes [exWfRow] [exWfRec] 200)) := by
  have h := scd_merge_routing [exWfRow] [exWfRec] 200 (by decide) (by decide)
    (by decide)
  exact ⟨h.1 exWfRec (by simp) exWfRow 1 rfl (by decide) (by decide), h.2.2⟩

/-- C6 counterexample: with an active row whose email is NULL, the changed
batch record is merged by INSERTING both changeset rows (the NULL email
makes the merge predicate UNKNOWN, so the old row is never matched), and
re-running the identical batch adds two more rows (3 rows after the first
run, 5 after the second) instead of zero. -/
theorem unchanged_stability_cex :
    (scdRun [exNullActive] [exNullRec] 200).map List.length = some 3 ∧
    ((scdRun [exNullActive] [exNullRec] 200).bind
      (fun r => scdRun r [exNullRec] 200)).map List.length = some 5 := by
  decide

/-- C6 (amended): a joined pair whose change condition does not hold is
excluded from both the changed group and the new-key group of the changeset;
and over a well-formed table and batch, re-running the Reconciler with the
identical batch returns the table of the first run unchanged (zero
additional rows). The unrestricted claim fails when NULL attributes make the
merge predicate UNKNOWN. -/
theorem unchanged_row_stability :
    (∀ (table : List Row) (batch : List CustRecord) (s' t : Row),
      (s', some t) ∈ joinedPairs table batch → changedPair (s', some t) = false →
      ((s', some t) ∉ (joinedPairs table batch).filter changedPair ∧
       (s', some t) ∉ (joinedPairs table batch).filter newKeyPair)) ∧
    (∀ (table : List Row) (batch : List CustRecord) (d d2 : Nat)
      (res : List Row), WellFormed table → BatchOK batch →
      scdRun table batch d = some res → scdRun res batch d2 = some res) := by
  refine ⟨?_, fun table batch d d2 res hW hB hrun => scd_run_idem hW hB hrun⟩
  intro table batch s' t hpair hch
  constructor
  · intro hmem
    rw [List.mem_filter] at hmem
    rw [hch] at hmem
    cases hmem.2
  · intro hmem
    rw [List.mem_filter] at hmem
    have hnk := hmem.2
    rw [newKeyPair] at hnk
    have hkm := (mem_joined_some hpair).1
    rw [keyMatch, TV.isTrue_iff, tvEq_eq_t] at hkm
    obtain ⟨k, hk1, _⟩ := hkm
    rw [Bool.and_eq_true] at hnk
    have h2 : (tgtOf ((s', some t).2)).customer_id.isNone = true := hnk.2
    rw [show tgtOf ((s', some t).2) = t from rfl, hk1] at h2
    cases h2

/-- C6 witness: a concrete unchanged pair contributes nothing, and the
concrete run is idempotent. -/
theorem unchanged_row_stability_witness :
    ((toRow exUnchRec, some exWfRow) ∉
      (joinedPairs [exWfRow] [exUnchRec]).filter changedPair) ∧
    scdRun [exWfRow] [exUnchRec] 9 = some [exWfRow] :=
  ⟨(unchanged_row_stability.1 [exWfRow] [exUnchRec] (toRow exUnchRec) exWfRow
      (by decide) (by decide)).1,
    unchanged_row_stability.2 [exWfRow] [exUnchRec] 5 9 [exWfRow]
      (by decide) (by decide) (by decide)⟩

theorem closed_not_newver (d1 d2 : Nat) (t r : Row) :
    mkClosed d1 t ≠ mkNewVersion d2 r := by
  intro h
  have h2 := congrArg Row.is_active h
  simp [mkClosed, mkNewVersion] at h2

theorem mkNewVersion_toRow_inj {d : Nat} {s1 s2 : CustRecord}
    (h : mkNewVersion d (toRow s1) = mkNewVersion d (toRow s2)) : s1 = s2 := by
  cases s1
  cases s2
  simp_all [mkNewVersion, toRow]

theorem newkey_count {table : List Row} {batch : List CustRecord} {d : Nat}
    {s : CustRecord} {k : Int} (hW : WellFormed table) (hB : BatchOK batch)
    (hs : s ∈ batch) (hk : s.customer_id = some k)
    (hA : activeK (some k) table = []) :
    (final_changes table batch d).count (mkNewVersion d (toRow s)) = 1 := by
  rw [List.count_eq_countP, countP_changes]
  have hold : (batch.map (fun s2 => (oldContrib table d s2).countP
      (fun x => x == mkNewVersion d (toRow s)))).sum = 0 := by
    rw [List.sum_eq_zero_iff]
    intro n hn
    rw [List.mem_map] at hn
    obtain ⟨s2, _, hn2⟩ := hn
    rw [← hn2, List.countP_eq_zero]
    intro c hc hp
    obtain ⟨t', _, _, hcEq⟩ := mem_oldContrib_shape hc
    exact closed_not_newver d d t' (toRow s) (hcEq ▸ eq_of_beq hp)
  have hnew : (batch.map (fun s2 => (newContrib table d s2).countP
      (fun x => x == mkNewVersion d (toRow s)))).sum = 0 := by
    rw [List.sum_eq_zero_iff]
    intro n hn
    rw [List.mem_map] at hn
    obtain ⟨s2, _, hn2⟩ := hn
    rw [← hn2, List.countP_eq_zero]
    intro c hc hp
    have hcEq := mem_newContrib_shape hc
    have hseq : s2 = s := mkNewVersion_toRow_inj (hcEq ▸ eq_of_beq hp)
    rw [hseq, newContrib_nomatch hk hA] at hc
    cases hc
  have hnk : (batch.map (fun s2 => (nkContrib table d s2).countP
      (fun x => x == mkNewVersion d (toRow s)))).sum = 1 := by
    rw [map_sum_single (fun s2 => s2.customer_id) hB.2 hs ?keyzero]
    case keyzero =>
      intro y hy hne
      rw [List.countP_eq_zero]
      intro c hc hp
      have hcEq := mem_nkContrib_shape hc
      have hseq : y = s := mkNewVersion_toRow_inj (hcEq ▸ eq_of_beq hp)
      exact hne (by rw [hseq])
    rw [nkContrib_nomatch hk hA]
    simp
  rw [hold, hnew, hnk]

/-- C7 counterexample: the dimension table holds only a CLOSED row for key 3
and the batch carries a record for key 3 with exactly the stored attribute
values; the changeset contains the single expected new-key row, but the
merge predicate MATCHES the inactive stored row, so the row is applied as an
update (recycling the history row) rather than inserted: the table still has
one row afterwards, and the closed version is destroyed. -/
theorem newkey_insertion_cex :
    (final_changes [exInactiveOnly] [exSameRec] 99).length = 1 ∧
    matchesB exInactiveOnly (mkNewVersion 99 (toRow exSameRec)) = true ∧
    scdRun [exInactiveOnly] [exSameRec] 99 =
      some [mkNewVersion 99 (toRow exSameRec)] ∧
    (scdRun [exInactiveOnly] [exSameRec] 99).map List.length = some 1 := by
  decide

/-- C7 (amended): over a well-formed table and batch, a batch record whose
non-NULL natural key has no active dimension row produces exactly one
changeset row, in the new-key group, carrying all source attributes with
`is_active = true`, `effective_start_date` = run date and
`effective_end_date` = sentinel; the merge inserts it as a new row and it
becomes the sole active row for its key. In a well-formed table a key
without an active row has no rows at all, which is what rules out the
history-recycling of the counterexample. -/
theorem newkey_insertion (table : List Row) (batch : List CustRecord) (d : Nat)
    (s : CustRecord) (k : Int) (hW : WellFormed table) (hB : BatchOK batch)
    (hs : s ∈ batch) (hk : s.customer_id = some k)
    (hA : activeK (some k) table = []) :
    mkNewVersion d (toRow s) ∈ new_records table batch d ∧
    ((mkNewVersion d (toRow s)).customer_id = some k ∧
      (mkNewVersion d (toRow s)).email = s.email ∧
      (mkNewVersion d (toRow s)).first_name = s.first_name ∧
      (mkNewVersion d (toRow s)).last_name = s.last_name ∧
      (mkNewVersion d (toRow s)).phone = s.phone ∧
      (mkNewVersion d (toRow s)).number_of_orders = s.number_of_orders ∧
      (mkNewVersion d (toRow s)).updated_at = s.updated_at ∧
      (mkNewVersion d (toRow s)).effective_start_date = some d ∧
      (mkNewVersion d (toRow s)).effective_end_date = some sentinelDate ∧
      (mkNewVersion d (toRow s)).is_active = some true) ∧
    (final_changes table batch d).count (mkNewVersion d (toRow s)) = 1 ∧
    mkNewVersion d (toRow s) ∈ mergeInserts table (final_changes table batch d) ∧
    ∃ res, scdRun table batch d = some res ∧
      activeK (some k) res = [mkNewVersion d (toRow s)] := by
  have hnokey := activeK_empty_no_key hW hA
  have hsrckey : (toRow s).customer_id = some k := hk
  refine ⟨?_, ⟨hk, rfl, rfl, rfl, rfl, rfl, rfl, rfl, rfl, rfl⟩,
    newkey_count hW hB hs hk hA, ?_, ?_⟩
  · rw [nk_records_flatMap, List.mem_flatMap]
    refine ⟨s, hs, ?_⟩
    rw [nkContrib_nomatch hk hA]
    simp
  · rw [mergeInserts, List.mem_filter]
    refine ⟨newver_mem_changes hs hk (Or.inr hA), ?_⟩
    rw [Bool.not_eq_true', List.any_eq_false]
    intro t ht hm
    have hkeq := matchesB_key_eq hm
    exact hnokey t ht (by rw [hkeq]; exact hsrckey)
  · have hne : batch ≠ [] := by
      intro h
      rw [h] at hs
      cases hs
    refine ⟨mergedResult table (final_changes table batch d), ?_, ?_⟩
    · rw [scdRun, scdRunT, if_neg hne, merge_changes_some hW hB]
      rfl
    · rcases active_after_spec (d := d) hW hB hs hk with ⟨a, hA', _, _⟩ | hres
      · rw [hA] at hA'
        cases hA'
      · exact hres

/-- C7 witness: a brand-new key inserted into the empty table. -/
theorem newkey_insertion_witness :
    mkNewVersion 5 (toRow exNewRec) ∈ new_records [] [exNewRec] 5 ∧
    (final_changes [] [exNewRec] 5).count (mkNewVersion 5 (toRow exNewRec)) = 1 ∧
    ∃ res, scdRun [] [exNewRec] 5 = some res ∧
      activeK (some 7) res = [mkNewVersion 5 (toRow exNewRec)] := by
  have h := newkey_insertion [] [exNewRec] 5 exNewRec 7 (by decide) (by decide)
    (by simp) rfl rfl
  exact ⟨h.1, h.2.2.1, h.2.2.2.2⟩

end SCD
